import Mathlib

/-!
# Verification of the `py-moera-api` generator (`pymoeraapi.py`)

A shallow embedding of the API-binding generator from
`src/moeralib/py-moera-api/pymoeraapi.py`.  The Python program is a batch
transformer: it loads a YAML specification (enums, operations groups,
structures, objects/requests) and writes three Python modules (`types.py`,
`schemas.py`, `node.py`).  Every function below mirrors one function of the
source file; file writes are modelled by returning the written text, and
`exit(1)` calls are modelled by an error value carried next to the text that
had already been written when the process died.

Conventions:
* YAML mappings with optional keys become structures with `Option` fields;
  `field.get(k, False)`-style boolean lookups become plain `Bool` fields.
* Python dicts (`structs`, `url_params`) become lists kept in insertion
  order, with dict-style insert-or-replace.
* The unbounded `while` loops of the source (`generate_structures`,
  `scan_body_usage`, `scan_output_usage`) are given explicit fuel
  `length + 1`; lemmas below show that this fuel always reaches the loop's
  fixed point, so the fueled function agrees with the source's loop.
* Numeric YAML values that are only ever interpolated into output text
  (`py-default`, `min`, `max`, ...) are carried as their rendered strings.
-/

set_option maxRecDepth 100000

namespace Moera

/-! ## Small string helpers (`ind`, `to_snake`, substring search) -/

/-- `ind(n)` from the source: `n * 4 * ' '`. -/
def ind (n : Nat) : String :=
  String.mk (List.replicate (n * 4) ' ')

/-- One step of the `to_snake` conversion: insert `_` before an upper-case
letter that follows a lower-case letter or a digit, and lower-case everything. -/
def to_snake_go : Option Char → List Char → List Char
  | _, [] => []
  | prev, c :: rest =>
    if c.isUpper then
      match prev with
      | some p =>
        if p.isLower || p.isDigit then
          '_' :: c.toLower :: to_snake_go (some c) rest
        else
          c.toLower :: to_snake_go (some c) rest
      | none => c.toLower :: to_snake_go (some c) rest
    else
      c.toLower :: to_snake_go (some c) rest

/-- Models `camel_converter.to_snake` (a third-party dependency of the
source) on ordinary CamelCase identifiers: `StoryInfo ↦ story_info`.
All-lower-case identifiers are fixed points, which is the only case the
concrete inputs below exercise. -/
def to_snake (s : String) : String :=
  String.mk (to_snake_go none s.toList)

/-- Python `str.upper()` on ASCII identifiers, char by char.  (Avoids
`String.toUpper`, whose well-founded recursion does not reduce in proofs.) -/
def str_to_upper (s : String) : String :=
  String.mk (s.toList.map Char.toUpper)

/-- Is `pat` a prefix of `s` (over char lists)? -/
def list_is_pre : List Char → List Char → Bool
  | [], _ => true
  | _ :: _, [] => false
  | a :: as, b :: bs => a == b && list_is_pre as bs

/-- Does `pat` occur anywhere inside `s` (over char lists)? -/
def list_has_sub (pat : List Char) : List Char → Bool
  | [] => list_is_pre pat []
  | c :: rest => list_is_pre pat (c :: rest) || list_has_sub pat rest

/-- `strContains s pat` — does the string `pat` occur inside `s`?
(Substring search used only in theorem statements, never by the embedding.) -/
def strContains (s pat : String) : Bool :=
  list_has_sub pat.toList s.toList

/-- First index `≥ start` at which `pat` occurs in `s`, scanning from `start`
(the semantics of Python's `s.find(pat, start)`, with `none` for `-1`). -/
def list_find_from_go (pat : List Char) : List Char → Nat → Option Nat
  | [], i => if list_is_pre pat [] then some i else none
  | c :: rest, i =>
    if list_is_pre pat (c :: rest) then some i else list_find_from_go pat rest (i + 1)

/-- `substr_find s pat start` — Python `s.find(pat, start)`. -/
def substr_find (s pat : List Char) (start : Nat) : Option Nat :=
  (list_find_from_go pat (s.drop start) 0).map (· + start)

/-! ## `comma_wrap` / `params_wrap` (line-wrapping helpers of the source) -/

/-- The inner `while` of `comma_wrap`: advance `pos` to the last `', '`
occurrence that is still `≤ max_length` (Python: repeated
`next = s.find(', ', pos + 1)`).  Each step strictly increases `pos`, so
fuel `s.length` is always enough. -/
def comma_wrap_pos (s : List Char) (maxLength : Nat) : Nat → Nat → Nat
  | 0, pos => pos
  | fuel + 1, pos =>
    match substr_find s [',', ' '] (pos + 1) with
    | none => pos
    | some nxt => if nxt > maxLength then pos else comma_wrap_pos s maxLength fuel nxt

/-- The outer `while` of `comma_wrap`; each iteration drops at least two
characters of `s`, so fuel `s.length + 1` is always enough. -/
def comma_wrap_go (indent : Nat) : Nat → List Char → String
  | 0, s => String.mk s
  | fuel + 1, s =>
    let maxLength := 120 - indent * 4
    if s.length ≤ maxLength then String.mk s
    else
      let pos := comma_wrap_pos s maxLength s.length 0
      String.mk (s.take pos) ++ ",\n" ++ ind indent ++ comma_wrap_go indent fuel (s.drop (pos + 2))

/-- `comma_wrap` from the source: wrap a comma-separated one-liner at
column `120 - indent * 4`, indenting continuation lines by `ind indent`. -/
def comma_wrap (s : String) (indent : Nat) : String :=
  comma_wrap_go indent (s.length + 1) s.toList

/-- `params_wrap` from the source.  The `%s` templates of the call sites are
passed as the pair `(tmplL, tmplR)` with `template % x = tmplL ++ x ++ tmplR`. -/
def params_wrap (tmplL tmplR : String) (substitute : String) (indent : Nat) : String :=
  let line := tmplL ++ substitute ++ tmplR
  if line.length > 120 then
    tmplL ++ ("\n" ++ ind indent ++ comma_wrap substitute indent ++ "\n" ++ ind (indent - 1)) ++ tmplR
  else line

/-! ## Data model (the YAML specification, loaded) -/

/-- A structure field (`structures[].fields[]` of the input document).
Optional YAML keys are `Option`s; `array`/`optional` are `field.get(k, False)`
lookups in the source, hence plain `Bool`s.  `py_default` is the `py-default`
key; numeric attributes are carried as their rendered text. -/
structure Field where
  name : String
  type : Option String
  struct : Option String
  enum : Option String
  array : Bool
  optional : Bool
  py_default : Option String
  min : Option String
  max : Option String
  min_items : Option String
  max_items : Option String
  deriving Repr, DecidableEq

/-- A field carrying only a name (all optional attributes absent). -/
def mkField (name : String) : Field :=
  ⟨name, none, none, none, false, false, none, none, none, none, none⟩

/-- One entry of the input's `structures` list: a name plus ordered fields. -/
structure StructData where
  name : String
  fields : List Field
  deriving Repr, DecidableEq

/-- One entry of `enums`: `{name, values: [{name}]}`. -/
structure EnumDef where
  name : String
  values : List String
  deriving Repr, DecidableEq

/-- One entry of `operations`: `{name, fields: [{name}]}`. -/
structure OperationsDef where
  name : String
  fields : List String
  deriving Repr, DecidableEq

/-- One entry of a request's `params` list.  `flags`, when present, is the
list of the flag names (`[flag['name'] for flag in param['flags']]`). -/
structure Param where
  name : Option String
  type : Option String
  enum : Option String
  flags : Option (List String)
  optional : Bool
  deriving Repr, DecidableEq

/-- A request's `in` or `out` body declaration. -/
structure InOut where
  type : Option String
  name : Option String
  struct : Option String
  array : Bool
  deriving Repr, DecidableEq

/-- One entry of an object's `requests` list.  The YAML key `in` is a Lean
keyword, so it is called `inp` here; `type` is the HTTP method. -/
structure Request where
  function : Option String
  type : String
  url : String
  params : Option (List Param)
  inp : Option InOut
  out : Option InOut
  auth : Option String
  deriving Repr, DecidableEq

/-- A request with only method and url set. -/
def mkRequest (method url : String) : Request :=
  ⟨none, method, url, none, none, none, none⟩

/-- One entry of the input's `objects` list. -/
structure ApiObject where
  requests : List Request
  deriving Repr, DecidableEq

/-- The root input document. -/
structure Api where
  enums : List EnumDef
  operations : List OperationsDef
  structures : List StructData
  objects : List ApiObject
  deriving Repr, DecidableEq

/-- The fatal conditions of the generator.  Each constructor corresponds to
one `print(...) / exit(1)` site (or an uncaught Python exception: `keyError`
for a missing mandatory mapping key, `assertionError` for the
`assert isinstance(s_type, tuple)` in `generate_schema`). -/
inductive GenError where
  | unrecognizedFieldType (t : String)
  | missingParameterName (method url : String)
  | missingBodyName (method url : String)
  | unrecognizedBodyType (t method url : String)
  | unknownUrlParameter (param url : String)
  | dependencyLoop (names : List String)
  | keyError (key : String)
  | assertionError
  deriving Repr, DecidableEq

/-! ## Type tables (`PY_TYPES`, `SCHEMA_TYPES`, `to_py_type`) -/

/-- The `PY_TYPES` table of the source. -/
def PY_TYPES : String → Option String
  | "String" => some "str"
  | "String[]" => some "list[str]"
  | "int" => some "int"
  | "float" => some "float"
  | "boolean" => some "bool"
  | "timestamp" => some "Timestamp"
  | "byte[]" => some "bytes"
  | "UUID" => some "str"
  | "String -> int" => some "dict[str, int]"
  | _ => none

/-- `to_py_type` from the source: unknown scalar types are fatal. -/
def to_py_type (api_type : String) : Except GenError String :=
  match PY_TYPES api_type with
  | none => .error (.unrecognizedFieldType api_type)
  | some t => .ok t

/-- A value of the `SCHEMA_TYPES` table: either a `(schema_type, is_array)`
pair or the special callable `schema_map_string_int`. -/
inductive SchemaTypeEntry where
  | plain (t : String) (array : Bool)
  | mapStringInt
  deriving Repr, DecidableEq

/-- The `SCHEMA_TYPES` table of the source. -/
def SCHEMA_TYPES : String → Option SchemaTypeEntry
  | "String" => some (.plain "string" false)
  | "String[]" => some (.plain "string" true)
  | "int" => some (.plain "integer" false)
  | "float" => some (.plain "number" false)
  | "boolean" => some (.plain "boolean" false)
  | "timestamp" => some (.plain "integer" false)
  | "byte[]" => some (.plain "string" false)
  | "UUID" => some (.plain "string" false)
  | "String -> int" => some .mapStringInt
  | _ => none

/-! ## Schema fragment emitters (`schema_type`, `schema_array`,
`schema_map_string_int`) — these return the text the source writes to
`sfile`. -/

/-- `schema_type` from the source. -/
def schema_type (indent : Nat) (a_type : String) (struct : Bool) (nullable : Bool)
    (default : Option String) (min : Option String) (max : Option String) : String :=
  if struct then
    if nullable then
      "to_nullable_object_schema(" ++ str_to_upper (to_snake a_type) ++ "_SCHEMA)"
    else
      str_to_upper (to_snake a_type) ++ "_SCHEMA"
  else
    "\x7b\n"
    ++ (if nullable then
          ind (indent + 1) ++ "\"type\": [\"" ++ a_type ++ "\", \"null\"]"
        else
          ind (indent + 1) ++ "\"type\": \"" ++ a_type ++ "\"")
    ++ (match default with
        | none => ""
        | some d => ",\n" ++ ind (indent + 1) ++ "\"default\": " ++ d)
    ++ (match min with
        | none => ""
        | some m => ",\n" ++ ind (indent + 1) ++ "\"minimum\": " ++ m)
    ++ (match max with
        | none => ""
        | some m => ",\n" ++ ind (indent + 1) ++ "\"maximum\": " ++ m)
    ++ "\n" ++ ind indent ++ "\x7d"

/-- `schema_array` from the source.  Note that the nested `schema_type` call
passes `nullable=False` and no default, exactly as the source does. -/
def schema_array (indent : Nat) (a_type : String) (struct : Bool) (nullable : Bool)
    (default : Option String) (min_items max_items : Option String)
    (min max : Option String) : String :=
  "\x7b\n"
  ++ (if nullable then
        ind (indent + 1) ++ "\"type\": [\"array\", \"null\"],\n"
      else
        ind (indent + 1) ++ "\"type\": \"array\",\n")
  ++ ind (indent + 1) ++ "\"items\": "
  ++ schema_type (indent + 1) a_type struct false none min max
  ++ (match default with
      | none => ""
      | some d => ",\n" ++ ind (indent + 1) ++ "\"default\": " ++ d)
  ++ (match min_items with
      | none => ""
      | some m => ",\n" ++ ind (indent + 1) ++ "\"minItems\": " ++ m)
  ++ (match max_items with
      | none => ""
      | some m => ",\n" ++ ind (indent + 1) ++ "\"maxItems\": " ++ m)
  ++ "\n" ++ ind indent ++ "\x7d"

/-- `schema_map_string_int` from the source, including its quirk: in the
non-nullable branch the word `object` is written *without* quotes
(`'object'` vs `'["object", "null"]'` in the Python string literals). -/
def schema_map_string_int (indent : Nat) (nullable : Bool) : String :=
  "\x7b\n"
  ++ ind (indent + 1) ++ "\"type\": " ++ (if nullable then "[\"object\", \"null\"]" else "object") ++ ",\n"
  ++ ind (indent + 1) ++ "\"patternProperties\": \x7b\n"
  ++ ind (indent + 2) ++ "\"^.*$\": "
  ++ schema_type (indent + 2) "integer" false false none none none
  ++ "\n"
  ++ ind (indent + 1) ++ "\x7d"
  ++ "\n" ++ ind indent ++ "\x7d"

/-! ## Enum and operations emitters -/

/-- `generate_enum` from the source (text written to `tfile`). -/
def generate_enum (e : EnumDef) : String :=
  let values := String.intercalate ", " (e.values.map (fun n => "\"" ++ n ++ "\""))
  params_wrap ("\n" ++ e.name ++ " = Literal[") "]\n" values 1

/-- `generate_operations` from the source: the pair of texts written to
`tfile` and `sfile`. -/
def generate_operations (ops : OperationsDef) : String × String :=
  let t := "\n\nclass " ++ ops.name ++ "(Structure):\n"
    ++ String.join (ops.fields.map (fun f => "    " ++ to_snake f ++ ": PrincipalValue | None = None\n"))
  let s := "\n"
    ++ str_to_upper (to_snake ops.name) ++ "_SCHEMA: Any = \x7b\n"
    ++ "    \"type\": \"object\",\n"
    ++ "    \"properties\": \x7b\n"
    ++ String.join (ops.fields.map (fun f =>
        ind 2 ++ "\"" ++ f ++ "\": " ++ schema_type 2 "string" false true none none none ++ ",\n"))
    ++ "    \x7d,\n"
    ++ "    \"additionalProperties\": False\n"
    ++ "\x7d\n"
  (t, s)

/-! ## The `Structure` class of the source -/

/-- The Python `Structure` class: spec data plus the mutable analysis flags
(`generated`, `uses_body`, `output`, `output_array`) and the precomputed
`depends` list. -/
structure Structure where
  data : StructData
  generated : Bool
  depends : List String
  uses_body : Bool
  output : Bool
  output_array : Bool
  deriving Repr, DecidableEq

/-- `Structure.__init__`: `depends = [field['struct'] for field in fields if 'struct' in field]`. -/
def Structure.init (d : StructData) : Structure :=
  ⟨d, false, d.fields.filterMap (fun f => f.struct), false, false, false⟩

/-- The `generic` property of the source (defined there, never used). -/
def Structure.generic (st : Structure) : Bool :=
  st.uses_body && st.output

/-- One field line of `generate_class`; `.ok ""` models the `continue` on
`type == 'any'`.  The `tmpl` choice (`| None = None` or not) keys on
`optional and 'py-default' not in field`, before any type resolution. -/
def class_field_line (f : Field) : Except GenError String :=
  let nullable := f.optional && f.py_default.isNone
  let render := fun (t : String) =>
    let t := if f.array then "list[" ++ t ++ "]" else t
    if nullable then
      "    " ++ to_snake f.name ++ ": " ++ t ++ " | None = None\n"
    else
      "    " ++ to_snake f.name ++ ": " ++ t ++ "\n"
  match f.struct with
  | some s => .ok (render s)
  | none =>
    match f.enum with
    | some e => .ok (render e)
    | none =>
      match f.type with
      | none => .error (.keyError "type")
      | some t =>
        if t = "any" then .ok ""
        else
          match to_py_type t with
          | .error e => .error e
          | .ok pt => .ok (render pt)

/-- The field loop of `generate_class`.  On a fatal error the text written
before the death of the process is kept (writes happen per line). -/
def generate_class_fields : List Field → String × Option GenError
  | [] => ("", none)
  | f :: rest =>
    match class_field_line f with
    | .error e => ("", some e)
    | .ok line =>
      let r := generate_class_fields rest
      (line ++ r.1, r.2)

/-- `generate_class` from the source: the text written to `tfile`, plus the
fatal error if `to_py_type` aborted the run midway. -/
def generate_class (d : StructData) : String × Option GenError :=
  let r := generate_class_fields d.fields
  ("\n\nclass " ++ d.name ++ "(Structure):\n" ++ r.1, r.2)

/-- One field of `generate_schema`: the text written to `sfile`, the names
appended to `required`, and the fatal error if any.  A field with
`type == 'any'` is skipped before anything is written or required.
In the table branch the field's own `array` attribute is *overwritten* by
the table's array flag (`t, array = s_type` in the source). -/
def schema_field (f : Field) : String × List String × Option GenError :=
  if f.type = some "any" then ("", [], none)
  else
    let head := ind 2 ++ "\"" ++ f.name ++ "\": "
    let default := f.py_default
    let optional := f.optional && default.isNone
    let req : List String := if !optional then [f.name] else []
    match f.struct with
    | some s =>
      let ts := if s = "Body" then ("string", false) else (s, true)
      let frag :=
        if f.array then
          schema_array 2 ts.1 ts.2 optional default f.min_items f.max_items f.min f.max
        else
          schema_type 2 ts.1 ts.2 optional default f.min f.max
      (head ++ frag ++ ",\n", req, none)
    | none =>
      match f.enum with
      | some _ =>
        let frag :=
          if f.array then
            schema_array 2 "string" false optional default f.min_items f.max_items f.min f.max
          else
            schema_type 2 "string" false optional default f.min f.max
        (head ++ frag ++ ",\n", req, none)
      | none =>
        match f.type with
        | none => (head, req, some .assertionError)
        | some t =>
          match SCHEMA_TYPES t with
          | none => (head, req, some .assertionError)
          | some .mapStringInt =>
            (head ++ schema_map_string_int 2 optional ++ ",\n", req, none)
          | some (.plain ts arr) =>
            let frag :=
              if arr then
                schema_array 2 ts false optional default f.min_items f.max_items f.min f.max
              else
                schema_type 2 ts false optional default f.min f.max
            (head ++ frag ++ ",\n", req, none)

/-- The field loop of `generate_schema`: concatenated property text, the
`required` list, and the first fatal error. -/
def generate_schema_fields : List Field → String × List String × Option GenError
  | [] => ("", [], none)
  | f :: rest =>
    match schema_field f with
    | (txt, req, some e) => (txt, req, some e)
    | (txt, req, none) =>
      let r := generate_schema_fields rest
      (txt ++ r.1, req ++ r.2.1, r.2.2)

/-- `generate_schema` from the source: the text written to `sfile` (the
`_ARRAY_SCHEMA` line included when `output_array` is set) plus the fatal
error if any. -/
def generate_schema (st : Structure) : String × Option GenError :=
  let nm := str_to_upper (to_snake st.data.name)
  let head := "\n" ++ nm ++ "_SCHEMA: Any = \x7b\n"
    ++ "    \"type\": \"object\",\n"
    ++ "    \"properties\": \x7b\n"
  match generate_schema_fields st.data.fields with
  | (ptxt, _, some e) => (head ++ ptxt, some e)
  | (ptxt, req, none) =>
    let tail := "    \x7d,\n"
      ++ (if req.length > 0 then
            "    \"required\": [\n"
            ++ String.join (req.map (fun n => "        \"" ++ n ++ "\",\n"))
            ++ "    ],\n"
          else "")
      ++ "    \"additionalProperties\": False\n"
      ++ "\x7d\n"
      ++ (if st.output_array then
            "\n" ++ nm ++ "_ARRAY_SCHEMA = array_schema(" ++ nm ++ "_SCHEMA)\n"
          else "")
    (head ++ ptxt ++ tail, none)

/-- The result of `Structure.generate`: texts written to `tfile` and
`sfile`, the updated object, and the fatal error if any.  The `generated`
flag is set only when no `exit(1)` interrupted the method. -/
structure GenOut where
  tOut : String
  sOut : String
  self : Structure
  err : Option GenError
  deriving Repr, DecidableEq

/-- `Structure.generate` from the source: always emit the class; emit the
schema only when `output`; then set `generated`. -/
def Structure.generate (st : Structure) : GenOut :=
  let c := generate_class st.data
  match c.2 with
  | some e => ⟨c.1, "", st, some e⟩
  | none =>
    if st.output then
      match generate_schema st with
      | (stxt, some e) => ⟨c.1, stxt, st, some e⟩
      | (stxt, none) => ⟨c.1, stxt, { st with generated := true }, none⟩
    else
      ⟨c.1, "", { st with generated := true }, none⟩

/-! ## The structs dictionary

The Python `structs: dict[str, Structure]` is modelled as a list in
insertion order: lookup finds the first entry with the given name, update
rewrites entries in place, dict-insert replaces in place or appends. -/

/-- Lookup by name (`structs[n]` / `n in structs`). -/
def find_struct : List Structure → String → Option Structure
  | [], _ => none
  | e :: rest, n => if e.data.name = n then some e else find_struct rest n

/-- `n in structs`. -/
def contains_struct (m : List Structure) (n : String) : Bool :=
  (find_struct m n).isSome

/-- In-place update of the entry named `n` (attribute mutation on the shared
object in Python). -/
def upd_struct (m : List Structure) (n : String) (f : Structure → Structure) : List Structure :=
  m.map (fun e => if e.data.name = n then f e else e)

/-- Python dict insert: replace the value in place if the key exists
(keeping its position), else append. -/
def dict_insert (m : List Structure) (e : Structure) : List Structure :=
  if contains_struct m e.data.name then upd_struct m e.data.name (fun _ => e) else m ++ [e]

/-- The names of the dictionary entries, in order. -/
def struct_names (m : List Structure) : List String :=
  m.map (fun e => e.data.name)

/-! ## `scan_body_usage` -/

/-- The seed loop of `scan_body_usage`: every structure with a direct
`Body` dependency starts `uses_body`. -/
def body_seed (m : List Structure) : List Structure :=
  m.map (fun e => if "Body" ∈ e.depends then { e with uses_body := true } else e)

/-- One pass of the propagation loop of `scan_body_usage`, visiting the
entries in dictionary order and seeing in-pass updates (as the Python pass
does, since it mutates the shared objects).  Returns the updated map and
the `modified` flag. -/
def body_pass_go : List String → List Structure → Bool → List Structure × Bool
  | [], m, modified => (m, modified)
  | n :: rest, m, modified =>
    match find_struct m n with
    | none => body_pass_go rest m modified
    | some e =>
      if e.uses_body then body_pass_go rest m modified
      else if e.depends.any (fun d =>
          match find_struct m d with
          | some e' => e'.uses_body
          | none => false) then
        body_pass_go rest (upd_struct m n (fun x => { x with uses_body := true })) true
      else
        body_pass_go rest m modified

/-- One full pass over `structs.values()`. -/
def body_pass (m : List Structure) : List Structure × Bool :=
  body_pass_go (struct_names m) m false

/-- The `while modified` loop of `scan_body_usage`, with fuel. -/
def body_loop : Nat → List Structure → List Structure
  | 0, m => m
  | fuel + 1, m =>
    let r := body_pass m
    if r.2 then body_loop fuel r.1 else r.1

/-- `scan_body_usage` from the source (fuel `length + 1` reaches the fixed
point, see `body_loop_fix` below). -/
def scan_body_usage (m : List Structure) : List Structure :=
  body_loop (m.length + 1) (body_seed m)

/-! ## `scan_output_usage` -/

/-- Seeding from one request: if it declares `out.struct` and that structure
exists, mark it `output` and or-in `out.array` into `output_array`. -/
def output_seed_req (m : List Structure) (r : Request) : List Structure :=
  match r.out with
  | none => m
  | some o =>
    match o.struct with
    | none => m
    | some sn =>
      if contains_struct m sn then
        upd_struct m sn (fun e => { e with output := true, output_array := e.output_array || o.array })
      else m

/-- The seed loops of `scan_output_usage` over all objects and requests. -/
def output_seed (api : Api) (m : List Structure) : List Structure :=
  api.objects.foldl (fun m ob => ob.requests.foldl output_seed_req m) m

/-- Visiting one `output` structure: walk its `depends` in order, marking
every present, not-yet-`output` dependency (each marking sets `modified`). -/
def output_visit : List String → List Structure → Bool → List Structure × Bool
  | [], m, modified => (m, modified)
  | d :: rest, m, modified =>
    match find_struct m d with
    | some e' =>
      if !e'.output then
        output_visit rest (upd_struct m d (fun x => { x with output := true })) true
      else output_visit rest m modified
    | none => output_visit rest m modified

/-- One pass of the propagation loop of `scan_output_usage`. -/
def output_pass_go : List String → List Structure → Bool → List Structure × Bool
  | [], m, modified => (m, modified)
  | n :: rest, m, modified =>
    match find_struct m n with
    | none => output_pass_go rest m modified
    | some e =>
      if e.output then
        let r := output_visit e.depends m modified
        output_pass_go rest r.1 r.2
      else
        output_pass_go rest m modified

/-- One full pass over `structs.values()`. -/
def output_pass (m : List Structure) : List Structure × Bool :=
  output_pass_go (struct_names m) m false

/-- The `while modified` loop of `scan_output_usage`, with fuel. -/
def output_loop : Nat → List Structure → List Structure
  | 0, m => m
  | fuel + 1, m =>
    let r := output_pass m
    if r.2 then output_loop fuel r.1 else r.1

/-- `scan_output_usage` from the source. -/
def scan_output_usage (api : Api) (m : List Structure) : List Structure :=
  output_loop (m.length + 1) (output_seed api m)

/-- `scan_structures` from the source: build the dict (insertion order,
duplicate names override in place), then run the two propagation passes. -/
def scan_structures (api : Api) : List Structure :=
  let m := api.structures.foldl (fun m d => dict_insert m (Structure.init d)) []
  scan_output_usage api (scan_body_usage m)

/-! ## `generate_structures` -/

/-- The state threaded through the emission loop: the dict, the texts
written so far to `tfile`/`sfile`, the emission order (names, in order of
`struct.generate` calls), the pass's `gen` flag and the fatal error. -/
structure GenPassState where
  structs : List Structure
  tOut : String
  sOut : String
  order : List String
  gen : Bool
  err : Option GenError
  deriving Repr, DecidableEq

/-- One pass of the emission loop: visit every dict entry in order; emit it
if it is not yet generated and all its present dependencies are.  A fatal
error inside `Structure.generate` aborts the pass (and the run). -/
def gen_pass_go : List String → GenPassState → GenPassState
  | [], st => st
  | n :: rest, st =>
    match find_struct st.structs n with
    | none => gen_pass_go rest st
    | some e =>
      if e.generated then gen_pass_go rest st
      else if e.depends.any (fun d =>
          match find_struct st.structs d with
          | some e' => !e'.generated
          | none => false) then
        gen_pass_go rest st
      else
        let g := e.generate
        match g.err with
        | some err =>
          { st with structs := upd_struct st.structs n (fun _ => g.self),
                    tOut := st.tOut ++ g.tOut, sOut := st.sOut ++ g.sOut, err := some err }
        | none =>
          gen_pass_go rest
            { st with structs := upd_struct st.structs n (fun _ => g.self),
                      tOut := st.tOut ++ g.tOut, sOut := st.sOut ++ g.sOut,
                      order := st.order ++ [n], gen := true }

/-- The `while gen` loop, with fuel. -/
def gen_loop : Nat → GenPassState → GenPassState
  | 0, st => st
  | fuel + 1, st =>
    let r := gen_pass_go (struct_names st.structs) { st with gen := false }
    match r.err with
    | some _ => r
    | none => if r.gen then gen_loop fuel r else r

/-- The result of `generate_structures`. -/
structure GenStructsResult where
  structs : List Structure
  tOut : String
  sOut : String
  order : List String
  err : Option GenError
  deriving Repr, DecidableEq

/-- `generate_structures` from the source: run the emission loop to
quiescence; if anything is left ungenerated, fail with `dependencyLoop`
naming exactly the ungenerated entries, in dictionary order. -/
def generate_structures (m : List Structure) : GenStructsResult :=
  let r := gen_loop (m.length + 1) ⟨m, "", "", [], false, none⟩
  match r.err with
  | some e => ⟨r.structs, r.tOut, r.sOut, r.order, some e⟩
  | none =>
    let loop := (r.structs.filter (fun e => !e.generated)).map (fun e => e.data.name)
    if loop.length > 0 then ⟨r.structs, r.tOut, r.sOut, r.order, some (.dependencyLoop loop)⟩
    else ⟨r.structs, r.tOut, r.sOut, r.order, none⟩

/-! ## `generate_calls` -/

/-- `is_no_auth` from the source. -/
def is_no_auth (auth : String) : Bool :=
  let variants := auth.splitOn " or "
  variants == ["none"] || variants == ["signature"]

/-- Lookup in the `url_params` dict. -/
def lookup_param : List (String × String) → String → Option String
  | [], _ => none
  | p :: rest, k => if p.1 = k then some p.2 else lookup_param rest k

/-- `del url_params[name]`. -/
def remove_param : List (String × String) → String → List (String × String)
  | [], _ => []
  | p :: rest, k => if p.1 = k then remove_param rest k else p :: remove_param rest k

/-- `url_params[name] = py_name`: replace in place if present, else append. -/
def url_dict_insert (l : List (String × String)) (k v : String) : List (String × String) :=
  if (lookup_param l k).isSome then
    l.map (fun p => if p.1 = k then (k, v) else p)
  else l ++ [(k, v)]

/-- The opening brace character (Python `'\x7b'`). -/
def lbrace : Char := Char.ofNat 123

/-- The closing brace character (Python `'\x7d'`). -/
def rbrace : Char := Char.ofNat 125

/-- `\w` of Python's `re` (ASCII fragment). -/
def is_word_char (c : Char) : Bool :=
  c.isAlphanum || c == '_'

/-- Scanner for `re.findall(r'{(\w+)}', location)`: at `\x7b`, a non-empty
maximal run of word characters followed by `\x7d` is a match (captured
group), and scanning resumes after the `\x7d`; otherwise the engine
advances one position.  Fuel is the remaining length. -/
def find_placeholders_go : Nat → List Char → List String
  | 0, _ => []
  | _, [] => []
  | fuel + 1, c :: rest =>
    if c == lbrace then
      let run := rest.takeWhile is_word_char
      match rest.drop run.length with
      | c2 :: rest2 =>
        if c2 == rbrace && run.length > 0 then
          String.mk run :: find_placeholders_go fuel rest2
        else find_placeholders_go fuel rest
      | [] => find_placeholders_go fuel rest
    else find_placeholders_go fuel rest

/-- All `{name}` placeholder names of a URL template, in order. -/
def find_placeholders (s : String) : List String :=
  find_placeholders_go s.length s.toList

/-- The `for name in p.findall(location)` loop: each placeholder must name a
*still-present* `url_params` key (consumed keys are deleted); a miss is the
fatal `UnknownUrlParameter`.  Returns the `uparams` pieces and the
remaining (unconsumed) `url_params`. -/
def location_scan (url : String) : List String → List (String × String) → List String →
    Except GenError (List String × List (String × String))
  | [], ups, uacc => .ok (uacc, ups)
  | n :: rest, ups, uacc =>
    match lookup_param ups n with
    | none => .error (.unknownUrlParameter n url)
    | some py => location_scan url rest (remove_param ups n) (uacc ++ [n ++ "=quote_plus(" ++ py ++ ")"])

/-- The local state after the `for param in request['params']` loop. -/
structure ParamsOut where
  params : String
  tail_params : String
  url_params : List (String × String)
  flag_name : Option String
  flag_py_name : Option String
  flags : List String
  deriving Repr, DecidableEq

/-- The parameter loop of `generate_calls`.  Every parameter needs a name;
`py_type` is resolved (and may be fatal) even for flag bundles, exactly as
in the source; a flag bundle contributes one `with_<flag>: bool = False`
parameter per flag, in declaration order. -/
def process_params (method url : String) : List Param → ParamsOut → Except GenError ParamsOut
  | [], acc => .ok acc
  | p :: rest, acc =>
    match p.name with
    | none => .error (.missingParameterName method url)
    | some name =>
      let py_name := to_snake name
      let ups := url_dict_insert acc.url_params name py_name
      let py_type_e : Except GenError String :=
        match p.enum with
        | some e => .ok ("types." ++ e)
        | none =>
          match p.type with
          | none => .error (.keyError "type")
          | some t => to_py_type t
      match py_type_e with
      | .error e => .error e
      | .ok py_type =>
        match p.flags with
        | some fs =>
          process_params method url rest
            { acc with url_params := ups, flag_name := some name, flag_py_name := some py_name,
                       flags := fs,
                       params := acc.params
                         ++ String.join (fs.map (fun fl => ", with_" ++ fl ++ ": bool = False")) }
        | none =>
          if p.optional then
            process_params method url rest
              { acc with url_params := ups,
                         tail_params := acc.tail_params
                           ++ ", " ++ py_name ++ ": " ++ py_type ++ " | None = None" }
          else
            process_params method url rest
              { acc with url_params := ups,
                         params := acc.params ++ ", " ++ py_name ++ ": " ++ py_type }

/-- The `if 'in' in request` block: contributions to `params` and
`call_params`. -/
def process_in (method url : String) (inp : Option InOut) : Except GenError (String × String) :=
  match inp with
  | none => .ok ("", "")
  | some i =>
    match i.type with
    | some t =>
      if t ≠ "blob" then .error (.unrecognizedBodyType t method url)
      else .ok (", file: IO, file_type: str", ", body_file=file, body_file_type=file_type")
    | none =>
      match i.name with
      | none => .error (.missingBodyName method url)
      | some nm =>
        let name := to_snake nm
        match i.struct with
        | none => .error (.keyError "struct")
        | some s =>
          let py_type := "types." ++ s
          let py_type := if i.array then "list[" ++ py_type ++ "]" else py_type
          .ok (", " ++ name ++ ": " ++ py_type, ", body=" ++ name)

/-- The `if 'out' in request` block: `(result, result_schema, result_array,
result_body)`. -/
def process_out (structs : List Structure) (method url : String) (out : Option InOut) :
    Except GenError (String × String × Bool × Bool) :=
  match out with
  | none => .ok ("types.Result", "schemas.RESULT_SCHEMA", false, false)
  | some o =>
    match o.type with
    | some t =>
      if t ≠ "blob" then .error (.unrecognizedBodyType t method url)
      else .ok ("IO", "\"blob\"", false, false)
    | none =>
      match o.struct with
      | none => .error (.keyError "struct")
      | some s =>
        let result := "types." ++ s
        let result_body :=
          match find_struct structs s with
          | some e => e.uses_body
          | none => false
        if o.array then
          .ok (result, "schemas." ++ str_to_upper (to_snake s) ++ "_ARRAY_SCHEMA", true, result_body)
        else
          .ok (result, "schemas." ++ str_to_upper (to_snake s) ++ "_SCHEMA", false, result_body)

/-- The local values of one request's emission, kept for the theorems, plus
the full text written to `afile`. -/
structure CallPieces where
  function : String
  params : String
  call_params : String
  location : String
  query_params : String
  flag_py_name : Option String
  flags : List String
  url_params_left : List (String × String)
  result : String
  result_array : Bool
  result_body : Bool
  text : String
  deriving Repr, DecidableEq

/-- The body of the request loop of `generate_calls` for one request:
`none` when the request has no `function` (the `continue`), otherwise the
emitted text or the fatal error, in the source's evaluation order
(parameters, input body, auth, URL placeholders, query parameters, output
body, text assembly). -/
def process_request (structs : List Structure) (r : Request) :
    Option (Except GenError CallPieces) :=
  match r.function with
  | none => none
  | some fn =>
    some (do
      let function := to_snake fn
      let pr ← process_params r.type r.url (r.params.getD [])
        ⟨"self", "", [], none, none, []⟩
      let inPieces ← process_in r.type r.url r.inp
      let params := pr.params ++ inPieces.1 ++ pr.tail_params
      let call_params := "\"" ++ function ++ "\", location, method=\"" ++ r.type ++ "\""
        ++ inPieces.2
      let call_params := call_params ++ (if is_no_auth ((r.auth).getD "none") then ", auth=False" else "")
      let locRes ←
        if pr.url_params.length > 0 then do
          let scanned ← location_scan r.url (find_placeholders r.url) pr.url_params []
          pure (params_wrap (ind 2 ++ "location = \"" ++ r.url ++ "\".format(") ")\n"
                  (String.intercalate ", " scanned.1) 3,
                scanned.2)
        else
          pure (ind 2 ++ "location = \"" ++ r.url ++ "\"\n", pr.url_params)
      let subs := locRes.2.map (fun p => "\"" ++ p.1 ++ "\": " ++ p.2)
      let qp :=
        if subs.length > 0 then
          (params_wrap (ind 2 ++ "params = \x7b") "\x7d\n" (String.intercalate ", " subs) 3,
           call_params ++ ", params=params")
        else ("", call_params)
      let outPieces ← process_out structs r.type r.url r.out
      let result := outPieces.1
      let result_array := outPieces.2.2.1
      let result_body := outPieces.2.2.2
      let call_params := qp.2 ++ ", schema=" ++ outPieces.2.1
        ++ (if result_body then ", bodies=True" else "")
      let defLine :=
        if result_array then
          params_wrap ("\n" ++ ind 1 ++ "def " ++ function ++ "(")
            (") -> list[" ++ result ++ "]:\n") params 2
        else
          params_wrap ("\n" ++ ind 1 ++ "def " ++ function ++ "(")
            (") -> " ++ result ++ ":\n") params 2
      let flagLine :=
        match pr.flag_name, pr.flag_py_name with
        | some _, some py =>
          ind 2 ++ py ++ " = comma_separated_flags(\x7b"
          ++ String.intercalate ", " (pr.flags.map (fun fl => "\"" ++ fl ++ "\": with_" ++ fl))
          ++ "\x7d)\n"
        | _, _ => ""
      let callLine := params_wrap (ind 2 ++ "data = self.call(") ")\n" call_params 3
      let retLine :=
        if result = "IO" then ind 2 ++ "return cast(IO, data)\n"
        else if result_array then
          ind 2 ++ "return structure_list(cast(list[Json], data), " ++ result ++ ")\n"
        else
          ind 2 ++ "return " ++ result ++ "(cast(Json, data))\n"
      let text := defLine ++ locRes.1 ++ flagLine ++ qp.1 ++ callLine ++ retLine
      pure ⟨function, params, call_params, locRes.1, qp.1, pr.flag_py_name, pr.flags,
            locRes.2, result, result_array, result_body, text⟩)

/-- `generate_calls` from the source: the text written to `afile` (after the
preamble) and the fatal error, if any, with no request processed past it. -/
def generate_calls (api : Api) (structs : List Structure) : String × Option GenError :=
  api.objects.foldl (fun acc ob =>
    ob.requests.foldl (fun acc r =>
      match acc.2 with
      | some _ => acc
      | none =>
        match process_request structs r with
        | none => acc
        | some (.error e) => (acc.1, some e)
        | some (.ok p) => (acc.1 ++ p.text, none)) acc) ("", none)

/-! ## The whole run (`generate_types` plus the CLI exit behaviour) -/

/-- `PREAMBLE_TYPES` from the source. -/
def PREAMBLE_TYPES : String :=
  "# This file is generated\n\nfrom typing import Literal, TypeAlias\n\nfrom moeralib.structure import Structure\n\nTimestamp: TypeAlias = int\nPrincipalValue: TypeAlias = str\n"

/-- `PREAMBLE_SCHEMAS` from the source. -/
def PREAMBLE_SCHEMAS : String :=
  "# This file is generated\n\nfrom typing import Any\n\nfrom moeralib.structure import to_nullable_object_schema, array_schema\n"

/-- `PREAMBLE_CALLS` from the source. -/
def PREAMBLE_CALLS : String :=
  "# This file is generated\n\nfrom typing import IO, cast\nfrom urllib.parse import quote_plus\n\nfrom moeralib.node import schemas\nfrom moeralib.node.caller import Caller\nfrom moeralib.node import types\nfrom moeralib.structure import Json, comma_separated_flags, structure_list\n\n\nclass MoeraNode(Caller):\n"

/-- What is on disk when the process ends: the three files (`none` when the
file was never created), the process exit code, and the fatal error.
`types.py` and `schemas.py` are opened (created) before any structure is
emitted, so on a mid-generation `exit(1)` they remain on disk with the text
written so far; `node.py` is opened only after `generate_structures`
succeeded. -/
structure RunResult where
  types_file : Option String
  schemas_file : Option String
  node_file : Option String
  exit_code : Nat
  err : Option GenError
  deriving Repr, DecidableEq

/-- `generate_types` from the source (together with the process exit
behaviour of its `exit(1)` sites). -/
def generate_types (api : Api) : RunResult :=
  let structs := scan_structures api
  let t1 := PREAMBLE_TYPES ++ String.join (api.enums.map generate_enum)
  let ts := api.operations.foldl (fun (acc : String × String) op =>
    let o := generate_operations op
    (acc.1 ++ o.1, acc.2 ++ o.2)) (t1, PREAMBLE_SCHEMAS)
  let g := generate_structures structs
  match g.err with
  | some e =>
    ⟨some (ts.1 ++ g.tOut), some (ts.2 ++ g.sOut), none, 1, some e⟩
  | none =>
    let calls := generate_calls api g.structs
    match calls.2 with
    | some e =>
      ⟨some (ts.1 ++ g.tOut), some (ts.2 ++ g.sOut), some (PREAMBLE_CALLS ++ calls.1), 1, some e⟩
    | none =>
      ⟨some (ts.1 ++ g.tOut), some (ts.2 ++ g.sOut), some (PREAMBLE_CALLS ++ calls.1), 0, none⟩

/-! ## `comma_separated_flags` (runtime helper of the generated code) -/

/-- Modelled from the spec: `comma_separated_flags` is imported by the
generated `node.py` from `moeralib.structure`, but that module's copy under
`src/` does not define it (the shipped `structure.py` ends at
`is_bytes_attribute`).  Per the spec's flag-bundling contract, it combines
exactly the sub-flags whose value is true, in declaration order, into one
comma-joined string, and yields nothing (the query parameter is omitted)
when no flag is true. -/
def comma_separated_flags (flags : List (String × Bool)) : Option String :=
  let names := (flags.filter (fun p => p.2)).map (fun p => p.1)
  if names.isEmpty then none else some (String.intercalate "," names)

/-! ## Analysis notions used by the theorems -/

/-- The per-entry data that the body-usage propagation reads and never
writes: name, dependencies, and the `uses_body` flag. -/
def body_view (m : List Structure) : List (String × List String × Bool) :=
  m.map (fun e => (e.data.name, e.depends, e.uses_body))

/-- Fixed-point closure of `uses_body`: every structure with a present
dependency that uses `Body` uses `Body` itself. -/
def body_closed (m : List Structure) : Prop :=
  ∀ e ∈ m, ∀ d ∈ e.depends, ∀ e', find_struct m d = some e' →
    e'.uses_body = true → e.uses_body = true

/-- Fixed-point closure of `output`: every present dependency of an output
structure is an output. -/
def output_closed (m : List Structure) : Prop :=
  ∀ e ∈ m, e.output = true → ∀ d ∈ e.depends, ∀ e', find_struct m d = some e' →
    e'.output = true

/-- The number of entries that do not yet use `Body` (the strictly
decreasing measure of `scan_body_usage`'s loop). -/
def count_not_body (m : List Structure) : Nat :=
  m.countP (fun e => !e.uses_body)

/-- The number of entries not yet marked `output`. -/
def count_not_output (m : List Structure) : Nat :=
  m.countP (fun e => !e.output)

/-- The number of entries not yet generated. -/
def count_ungen (m : List Structure) : Nat :=
  m.countP (fun e => !e.generated)

/-- The struct-dependency graph: nodes in dictionary order with their
`depends` lists.  Flag mutation never changes it. -/
def dep_graph (m : List Structure) : List (String × List String) :=
  m.map (fun e => (e.data.name, e.depends))

/-- `A` directly depends on `B`: some structure named `A` has a
struct-valued field referencing `B`, and `B` is present in the dictionary. -/
def dep_step (m : List Structure) (a b : String) : Prop :=
  ∃ e ∈ m, e.data.name = a ∧ b ∈ e.depends ∧ contains_struct m b = true

/-- `A` depends, directly or transitively, on `B`. -/
def DependsOn (m : List Structure) : String → String → Prop :=
  Relation.TransGen (dep_step m)

/-- A structure name is *emittable* when it can eventually be emitted by
`generate_structures`'s strategy: all its present dependencies are
emittable first (absent dependencies are ignored, as in the source's
`if d in structs` filter).  The stuck set of a specification is exactly the
set of non-emittable names (proved below). -/
inductive Emittable (g : List (String × List String)) : String → Prop where
  | step (n : String) (deps : List String) (hmem : (n, deps) ∈ g)
      (hdeps : ∀ d ∈ deps, (∃ p ∈ g, p.1 = d) → Emittable g d) : Emittable g n

/-- The emission-order invariant: a structure is generated exactly when its
name is in the order, and every present dependency of an emitted structure
appears strictly earlier in the order. -/
def order_ok (m : List Structure) (order : List String) : Prop :=
  (∀ e ∈ m, (e.generated = true ↔ e.data.name ∈ order))
  ∧ ∀ l1 n l2, order = l1 ++ n :: l2 → ∀ e ∈ m, e.data.name = n →
      ∀ d ∈ e.depends, contains_struct m d = true → d ∈ l1

/-- Every entry's `depends` list agrees with its fields (established by
`Structure.init`, preserved by every pass). -/
def deps_ok (m : List Structure) : Prop :=
  ∀ e ∈ m, e.depends = e.data.fields.filterMap (fun fl => fl.struct)

/-! ## Concrete specifications used by the theorems -/

/-- Two structures referencing each other with no optional break
(`a → b → a`) and no requests: the canonical dependency cycle. -/
def api2cycle : Api :=
  ⟨[], [],
   [⟨"a", [{ mkField "fb" with struct := some "b" }]⟩,
    ⟨"b", [{ mkField "fa" with struct := some "a" }]⟩],
   [⟨[]⟩]⟩

/-- A field marked `optional` that carries a `py-default` value. -/
def fieldOptDefault : Field :=
  { mkField "x" with type := some "int", optional := true, py_default := some "0" }

/-- A structure holding only `fieldOptDefault`, flagged as an output. -/
def structOptDefault : Structure :=
  ⟨⟨"st", [fieldOptDefault]⟩, false, [], false, true, false⟩

/-- A structure with a direct `Body`-typed field. -/
def structDataWithBody : StructData :=
  ⟨"g", [{ mkField "body" with struct := some "Body" }]⟩

/-- A request returning `structDataWithBody` (no `function`, so the call
emitter skips it). -/
def reqOutG : Request :=
  { mkRequest "GET" "/g" with out := some ⟨none, none, some "g", false⟩ }

/-- An API whose single structure has a `Body` field and is an output. -/
def apiGenericBody : Api :=
  ⟨[], [], [structDataWithBody], [⟨[reqOutG]⟩]⟩

/-- A request whose URL carries a `\x7bid\x7d` placeholder while declaring
no parameters at all. -/
def reqPlaceholderNoParams : Request :=
  { mkRequest "GET" "/things/\x7bid\x7d" with function := some "getThing" }

/-- An API containing only `reqPlaceholderNoParams`. -/
def apiPlaceholderNoParams : Api :=
  ⟨[], [], [], [⟨[reqPlaceholderNoParams]⟩]⟩

/-- A request returning structure `a` (no `function`, so the call emitter
skips it). -/
def reqOutA : Request :=
  { mkRequest "GET" "/a" with out := some ⟨none, none, some "a", false⟩ }

/-- A two-structure chain: `a` has a struct-valued field referencing `b`,
`b` has a direct `Body` field, and `a` is an endpoint output. -/
def apiChain : Api :=
  ⟨[], [],
   [⟨"a", [{ mkField "fb" with struct := some "b" }]⟩,
    ⟨"b", [{ mkField "g" with struct := some "Body" }]⟩],
   [⟨[reqOutA]⟩]⟩

/-- The dictionary entry of `a` after `scan_structures apiChain`: it
depends on `b`, uses `Body` (through `b`) and is an output. -/
def chainScanA : Structure :=
  ⟨⟨"a", [{ mkField "fb" with struct := some "b" }]⟩, false, ["b"], true, true, false⟩

/-- The dictionary entry of `b` after `scan_structures apiChain`: a direct
`Body` user, marked an output by propagation from `a`. -/
def chainScanB : Structure :=
  ⟨⟨"b", [{ mkField "g" with struct := some "Body" }]⟩, false, ["Body"], true, true, false⟩

/-- The entry of `a` after emission (`generated` set). -/
def chainGenA : Structure :=
  { chainScanA with generated := true }

/-- A field whose scalar type is exactly `any`. -/
def fieldAny : Field :=
  { mkField "z" with type := some "any" }

/-! ## C1, counterexample

The claim requires that a cyclic specification "produces no output
artifacts".  The run below does fail with `DependencyCycle` naming both
members and exits non-zero — but `types.py` and `schemas.py` have already
been created and hold their preambles when `exit(1)` fires inside
`generate_structures` (the files are opened before emission starts), so
output artifacts *are* produced. -/

/-- C1 (counterexample): on the two-structure cycle `a ↔ b` the generator
does fail with `DependencyCycle` naming both structures and exit code 1,
and writes no `node.py` — but, contrary to the claim, the `types.py` and
`schemas.py` artifacts exist on disk (holding their preambles). -/
theorem c1_counterexample :
    (generate_types api2cycle).err = some (.dependencyLoop ["a", "b"])
    ∧ (generate_types api2cycle).exit_code = 1
    ∧ (generate_types api2cycle).node_file = none
    ∧ (generate_types api2cycle).types_file = some PREAMBLE_TYPES
    ∧ (generate_types api2cycle).schemas_file = some PREAMBLE_SCHEMAS := by
  refine ⟨rfl, rfl, rfl, rfl, rfl⟩

/-! ## C2, counterexample

In `generate_schema` the local is
`optional = field.get('optional', False) and default is None`: a field that
is `optional` *with* a `py-default` therefore fails `if not optional` and
is appended to `required`.  The claim's "still excluded from required" is
false; the default itself is embedded as claimed. -/

/-- C2 (counterexample): the optional field `x` with default `0` *is*
listed in the generated schema's `required` (the claim demands it be
excluded); the `"default": 0` embedding itself does happen. -/
theorem c2_counterexample :
    (generate_schema_fields [fieldOptDefault]).2.1 = ["x"]
    ∧ strContains (generate_schema structOptDefault).1 "\"default\": 0" = true
    ∧ strContains (generate_schema structOptDefault).1 "\"required\": [\n        \"x\",\n    ]" = true := by
  refine ⟨by decide, by decide, by decide⟩

/-! ## C4, counterexample

The generator emits, per structure, exactly one typed class (its `Body`
fields typed as the decoded `Body` type) and — when `output` — one schema
(its `Body` fields validated as encoded strings).  No second "encoded"
class instantiation exists anywhere in the artifacts; the `generic`
property is defined in the source but never used. -/

/-- C4 (counterexample): for a structure `g` with a `Body` field that is an
endpoint output (`uses_body ∧ output`, i.e. generic), the full `types.py`
artifact contains exactly one definition of `g` — a single class whose body
field has the structured type `Body` — and no encoded (`body: str`)
variant, contradicting "exactly two usable instantiations". -/
theorem c4_counterexample :
    (generate_types apiGenericBody).types_file
      = some (PREAMBLE_TYPES ++ "\n\nclass g(Structure):\n    body: Body\n")
    ∧ (generate_types apiGenericBody).schemas_file
      = some (PREAMBLE_SCHEMAS
          ++ "\nG_SCHEMA: Any = \x7b\n    \"type\": \"object\",\n    \"properties\": \x7b\n        \"body\": \x7b\n            \"type\": \"string\"\n        \x7d,\n    \x7d,\n    \"required\": [\n        \"body\",\n    ],\n    \"additionalProperties\": False\n\x7d\n")
    ∧ strContains ((generate_types apiGenericBody).types_file.getD "") "body: str" = false := by
  refine ⟨by decide, by decide, by decide⟩

/-! ## C6, counterexample

The placeholder check of `generate_calls` is guarded by
`if len(url_params) > 0`: a request that declares no parameters is never
scanned for `{name}` placeholders, so an unresolvable placeholder passes
through into the emitted code instead of failing with
`UnknownUrlParameter`. -/

/-- C6 (counterexample): a request whose URL contains the placeholder
`\x7bid\x7d` but declares no parameter generates successfully (exit 0, no
error), leaving the unresolved placeholder verbatim in the emitted
location line — the claim demands an `UnknownUrlParameter` failure. -/
theorem c6_counterexample :
    (generate_types apiPlaceholderNoParams).exit_code = 0
    ∧ (generate_types apiPlaceholderNoParams).err = none
    ∧ strContains ((generate_types apiPlaceholderNoParams).node_file.getD "")
        "location = \"/things/\x7bid\x7d\"\n" = true := by
  refine ⟨by decide, by decide, by decide⟩

/-! ## C8, code bug

`schema_map_string_int` writes the non-nullable outer type as
`'object'` — without the quotes every sibling branch uses
(`'"type": "{a_type}"'` in `schema_type`, `'["object", "null"]'` in its own
nullable branch).  The generated `schemas.py` then contains
`"type": object`, i.e. the Python builtin class `object` instead of the
JSON Schema string `"object"`, which `jsonschema.validate` rejects as an
invalid schema.  The claim (and the evident intent) is the plain string
`"object"`. -/

/-- C8 (code bug, evaluated at the failing input): for a non-nullable
`String -> int` field the emitted fragment has the unquoted `"type": object`
and not the claimed `"type": "object"`; the nullable branch and the
wildcard-pattern/integer part are as the claim states. -/
theorem c8_map_schema_divergence :
    schema_map_string_int 2 false
      = "\x7b\n            \"type\": object,\n            \"patternProperties\": \x7b\n                \"^.*$\": \x7b\n                    \"type\": \"integer\"\n                \x7d\n            \x7d\n        \x7d"
    ∧ strContains (schema_map_string_int 2 false) "\"type\": \"object\"" = false
    ∧ strContains (schema_map_string_int 2 true) "\"type\": [\"object\", \"null\"]" = true
    ∧ strContains (schema_map_string_int 2 true)
        "\"patternProperties\": \x7b\n                \"^.*$\": \x7b\n                    \"type\": \"integer\"\n                \x7d" = true := by
  refine ⟨by decide, by decide, by decide, by decide⟩

/-! ## Dictionary lemmas -/

theorem mem_of_find_struct {m : List Structure} {n : String} {e : Structure}
    (h : find_struct m n = some e) : e ∈ m ∧ e.data.name = n := by
  induction m with
  | nil => simp [find_struct] at h
  | cons x rest ih =>
    by_cases hx : x.data.name = n
    · simp [find_struct, hx] at h
      exact ⟨by simp [← h], by rw [← h]; exact hx⟩
    · simp [find_struct, hx] at h
      rcases ih h with ⟨h1, h2⟩
      exact ⟨List.mem_cons_of_mem _ h1, h2⟩

theorem find_struct_of_mem {m : List Structure} {e : Structure}
    (hnd : (struct_names m).Nodup) (he : e ∈ m) :
    find_struct m e.data.name = some e := by
  induction m with
  | nil => simp at he
  | cons x rest ih =>
    rcases List.mem_cons.mp he with rfl | hr
    · simp [find_struct]
    · have hnd' := hnd
      simp only [struct_names, List.map_cons, List.nodup_cons] at hnd'
      have hne : x.data.name ≠ e.data.name := by
        intro hcontra
        exact hnd'.1 (hcontra ▸ List.mem_map_of_mem (fun e => e.data.name) hr)
      simp only [find_struct]
      rw [if_neg hne]
      exact ih hnd'.2 hr

theorem contains_struct_iff {m : List Structure} {n : String} :
    contains_struct m n = true ↔ n ∈ struct_names m := by
  induction m with
  | nil => simp [contains_struct, find_struct, struct_names]
  | cons x rest ih =>
    by_cases hx : x.data.name = n
    · simp [contains_struct, find_struct, hx, struct_names]
    · simp only [contains_struct, find_struct, hx, if_false, struct_names, List.map_cons,
        List.mem_cons]
      rw [← struct_names]
      rw [contains_struct] at ih
      simp [ih, Ne.symm hx]

theorem struct_names_upd {m : List Structure} {n : String} {f : Structure → Structure}
    (h : ∀ x ∈ m, x.data.name = n → (f x).data.name = n) :
    struct_names (upd_struct m n f) = struct_names m := by
  induction m with
  | nil => rfl
  | cons x rest ih =>
    simp only [upd_struct, struct_names, List.map_cons, List.map_map] at *
    by_cases hx : x.data.name = n
    · rw [if_pos hx, h x (List.mem_cons_self x rest) hx, hx]
      have := ih (fun y hy hyn => h y (List.mem_cons_of_mem x hy) hyn)
      simp only [upd_struct, struct_names, List.map_map] at this
      rw [this]
    · rw [if_neg hx]
      have := ih (fun y hy hyn => h y (List.mem_cons_of_mem x hy) hyn)
      simp only [upd_struct, struct_names, List.map_map] at this
      rw [this]

theorem find_struct_upd_other {m : List Structure} {n k : String} {f : Structure → Structure}
    (hne : k ≠ n) (h : ∀ x ∈ m, x.data.name = n → (f x).data.name = n) :
    find_struct (upd_struct m n f) k = find_struct m k := by
  induction m with
  | nil => rfl
  | cons x rest ih =>
    simp only [upd_struct, List.map_cons] at *
    by_cases hx : x.data.name = n
    · rw [if_pos hx]
      have hfx : (f x).data.name = n := h x (List.mem_cons_self x rest) hx
      have h1 : (f x).data.name ≠ k := by rw [hfx]; exact fun hc => hne hc.symm
      have h2 : x.data.name ≠ k := by rw [hx]; exact fun hc => hne hc.symm
      simp only [find_struct, h1, h2, if_false]
      exact ih (fun y hy hyn => h y (List.mem_cons_of_mem x hy) hyn)
    · rw [if_neg hx]
      by_cases hk : x.data.name = k
      · simp [find_struct, hk]
      · simp only [find_struct, hk, if_false]
        exact ih (fun y hy hyn => h y (List.mem_cons_of_mem x hy) hyn)

theorem find_struct_upd_self {m : List Structure} {n : String} {e : Structure}
    {f : Structure → Structure}
    (hf : find_struct m n = some e) (h : ∀ x ∈ m, x.data.name = n → (f x).data.name = n) :
    find_struct (upd_struct m n f) n = some (f e) := by
  induction m with
  | nil => simp [find_struct] at hf
  | cons x rest ih =>
    simp only [upd_struct, List.map_cons] at *
    by_cases hx : x.data.name = n
    · rw [if_pos hx]
      simp only [find_struct, hx, if_true] at hf
      have hfx : (f x).data.name = n := h x (List.mem_cons_self x rest) hx
      simp only [find_struct, hfx, if_true]
      exact congrArg (fun y => some (f y)) (Option.some.inj hf)
    · rw [if_neg hx]
      simp only [find_struct, hx, if_false] at hf ⊢
      exact ih hf (fun y hy hyn => h y (List.mem_cons_of_mem x hy) hyn)

theorem mem_upd_struct {m : List Structure} {n : String} {f : Structure → Structure}
    {x : Structure} (hx : x ∈ upd_struct m n f) :
    ∃ y ∈ m, x = if y.data.name = n then f y else y := by
  rcases List.mem_map.mp hx with ⟨y, hy, hxy⟩
  exact ⟨y, hy, hxy.symm⟩

theorem upd_struct_pred {m : List Structure} {n : String} {f : Structure → Structure}
    {P : Structure → Prop}
    (hall : ∀ e ∈ m, P e) (hf : ∀ e, P e → P (f e)) : ∀ e ∈ upd_struct m n f, P e := by
  intro e he
  rcases mem_upd_struct he with ⟨y, hy, hey⟩
  by_cases hyn : y.data.name = n
  · rw [hey, if_pos hyn]; exact hf y (hall y hy)
  · rw [hey, if_neg hyn]; exact hall y hy

theorem upd_struct_id {m : List Structure} {n : String} {e : Structure}
    (hnd : (struct_names m).Nodup) (hf : find_struct m n = some e) :
    upd_struct m n (fun _ => e) = m := by
  induction m with
  | nil => rfl
  | cons x rest ih =>
    simp only [struct_names, List.map_cons, List.nodup_cons] at hnd
    simp only [upd_struct, List.map_cons]
    by_cases hx : x.data.name = n
    · simp only [find_struct, hx, if_true] at hf
      rw [if_pos hx, ← Option.some.inj hf]
      congr 1
      have : ∀ y ∈ rest, ¬(y.data.name = n) := by
        intro y hy hc
        exact hnd.1 (by rw [← hc] at hx; rw [hx]; exact List.mem_map_of_mem _ hy)
      calc rest.map (fun y => if y.data.name = n then x else y)
          = rest.map (fun y => y) := List.map_congr_left (fun y hy => by
            rw [if_neg (this y hy)])
        _ = rest := List.map_id rest
    · simp only [find_struct, hx, if_false] at hf
      rw [if_neg hx]
      have := ih hnd.2 hf
      simp only [upd_struct] at this
      rw [this]

theorem length_upd_struct {m : List Structure} {n : String} {f : Structure → Structure} :
    (upd_struct m n f).length = m.length :=
  List.length_map m _

/-! ## Body-usage propagation: the fixed point is reached -/

theorem body_seed_names (m : List Structure) : struct_names (body_seed m) = struct_names m := by
  induction m with
  | nil => rfl
  | cons x rest ih =>
    simp only [body_seed, struct_names, List.map_cons, List.map_map] at *
    by_cases hx : "Body" ∈ x.depends <;> simp [hx, ih]

theorem bpg_names (names : List String) (m : List Structure) (mo : Bool) :
    struct_names (body_pass_go names m mo).1 = struct_names m := by
  induction names generalizing m mo with
  | nil => rfl
  | cons n rest ih =>
    simp only [body_pass_go]
    cases hfs : find_struct m n with
    | none => exact ih m mo
    | some e =>
      by_cases hub : e.uses_body = true
      · simp only [hub, if_true]; exact ih m mo
      · simp only [Bool.not_eq_true] at hub
        simp only [hub, Bool.false_eq_true, if_false]
        by_cases hany : e.depends.any (fun d =>
            match find_struct m d with
            | some e' => e'.uses_body
            | none => false) = true
        · simp only [hany, if_true]
          rw [ih]
          exact struct_names_upd (fun x _ hx => hx)
        · simp only [Bool.not_eq_true] at hany
          simp only [hany, Bool.false_eq_true, if_false]
          exact ih m mo

theorem bpg_gen_mono (names : List String) (m : List Structure) :
    (body_pass_go names m true).2 = true := by
  induction names generalizing m with
  | nil => rfl
  | cons n rest ih =>
    simp only [body_pass_go]
    cases hfs : find_struct m n with
    | none => exact ih m
    | some e =>
      by_cases hub : e.uses_body = true
      · simp only [hub, if_true]; exact ih m
      · simp only [Bool.not_eq_true] at hub
        simp only [hub, Bool.false_eq_true, if_false]
        by_cases hany : e.depends.any (fun d =>
            match find_struct m d with
            | some e' => e'.uses_body
            | none => false) = true
        · simp only [hany, if_true]; exact ih _
        · simp only [Bool.not_eq_true] at hany
          simp only [hany, Bool.false_eq_true, if_false]
          exact ih m

theorem bpg_no_change (names : List String) (m : List Structure) (mo : Bool)
    (h : (body_pass_go names m mo).2 = false) :
    (body_pass_go names m mo).1 = m ∧ mo = false := by
  induction names generalizing m mo with
  | nil => exact ⟨rfl, h⟩
  | cons n rest ih =>
    simp only [body_pass_go] at h ⊢
    cases hfs : find_struct m n with
    | none => rw [hfs] at h; exact ih m mo h
    | some e =>
      rw [hfs] at h
      by_cases hub : e.uses_body = true
      · simp only [hub, if_true] at h ⊢; exact ih m mo h
      · simp only [Bool.not_eq_true] at hub
        simp only [hub, Bool.false_eq_true, if_false] at h ⊢
        by_cases hany : e.depends.any (fun d =>
            match find_struct m d with
            | some e' => e'.uses_body
            | none => false) = true
        · rw [if_pos hany] at h
          rw [bpg_gen_mono] at h
          exact absurd h (by simp)
        · simp only [Bool.not_eq_true] at hany
          simp only [hany, Bool.false_eq_true, if_false] at h ⊢
          exact ih m mo h

theorem count_not_body_upd_le (m : List Structure) (n : String) :
    count_not_body (upd_struct m n (fun x => { x with uses_body := true })) ≤ count_not_body m := by
  induction m with
  | nil => exact Nat.le_refl _
  | cons x rest ih =>
    simp only [upd_struct, count_not_body, List.map_cons, List.countP_cons] at *
    by_cases hx : x.data.name = n
    · simp only [hx, if_true]
      exact Nat.add_le_add ih (by simp)
    · simp only [hx, if_false]
      exact Nat.add_le_add ih (Nat.le_refl _)

theorem count_not_body_upd_lt {m : List Structure} {n : String} {e : Structure}
    (hf : find_struct m n = some e) (hub : e.uses_body = false) :
    count_not_body (upd_struct m n (fun x => { x with uses_body := true })) < count_not_body m := by
  induction m with
  | nil => simp [find_struct] at hf
  | cons x rest ih =>
    simp only [find_struct] at hf
    simp only [upd_struct, count_not_body, List.map_cons, List.countP_cons]
    by_cases hx : x.data.name = n
    · rw [if_pos hx] at hf
      have hxe : x = e := Option.some.inj hf
      simp only [hx, if_true]
      have h1 : (!({ x with uses_body := true } : Structure).uses_body) = false := rfl
      have h2 : (!x.uses_body) = true := by rw [hxe, hub]; rfl
      rw [h1, h2]
      simp only [Bool.false_eq_true, if_false, if_true]
      have hle := count_not_body_upd_le rest n
      simp only [count_not_body, upd_struct] at hle
      omega
    · rw [if_neg hx] at hf
      simp only [hx, if_false]
      have hlt := ih hf
      simp only [count_not_body, upd_struct] at hlt
      omega

theorem bpg_count (names : List String) (m : List Structure) (mo : Bool) :
    count_not_body (body_pass_go names m mo).1 ≤ count_not_body m
    ∧ (mo = false → (body_pass_go names m mo).2 = true →
        count_not_body (body_pass_go names m mo).1 < count_not_body m) := by
  induction names generalizing m mo with
  | nil =>
    refine ⟨Nat.le_refl _, fun hmo hgen => ?_⟩
    simp only [body_pass_go] at hgen
    rw [hmo] at hgen
    exact absurd hgen (by simp)
  | cons n rest ih =>
    simp only [body_pass_go]
    cases hfs : find_struct m n with
    | none => exact ih m mo
    | some e =>
      by_cases hub : e.uses_body = true
      · simp only [hub, if_true]; exact ih m mo
      · simp only [Bool.not_eq_true] at hub
        simp only [hub, Bool.false_eq_true, if_false]
        by_cases hany : e.depends.any (fun d =>
            match find_struct m d with
            | some e' => e'.uses_body
            | none => false) = true
        · simp only [hany, if_true]
          have hlt := count_not_body_upd_lt hfs hub
          have hrec := (ih (upd_struct m n (fun x => { x with uses_body := true })) true).1
          exact ⟨Nat.le_trans hrec (Nat.le_of_lt hlt), fun _ _ => Nat.lt_of_le_of_lt hrec hlt⟩
        · simp only [Bool.not_eq_true] at hany
          simp only [hany, Bool.false_eq_true, if_false]
          exact ih m mo

theorem body_loop_names (fuel : Nat) (m : List Structure) :
    struct_names (body_loop fuel m) = struct_names m := by
  induction fuel generalizing m with
  | zero => rfl
  | succ k ih =>
    simp only [body_loop]
    by_cases h : (body_pass m).2 = true
    · rw [if_pos h, ih]; exact bpg_names _ _ _
    · simp only [Bool.not_eq_true] at h
      rw [h]
      simp only [Bool.false_eq_true, if_false]
      exact bpg_names _ _ _

theorem body_loop_fix (fuel : Nat) (m : List Structure) (hfuel : count_not_body m < fuel) :
    body_pass (body_loop fuel m) = (body_loop fuel m, false) := by
  induction fuel generalizing m with
  | zero => omega
  | succ k ih =>
    simp only [body_loop]
    by_cases h : (body_pass m).2 = true
    · rw [if_pos h]
      apply ih
      have := (bpg_count (struct_names m) m false).2 rfl h
      simp only [body_pass] at h ⊢
      omega
    · simp only [Bool.not_eq_true] at h
      rw [h]
      simp only [Bool.false_eq_true, if_false]
      have hnc := bpg_no_change (struct_names m) m false h
      simp only [body_pass] at *
      rw [hnc.1]
      have : body_pass_go (struct_names m) m false
          = ((body_pass_go (struct_names m) m false).1, (body_pass_go (struct_names m) m false).2) := rfl
      rw [hnc.1, h] at this
      exact this

theorem bpg_visits (names : List String) (m : List Structure) (mo : Bool)
    (h : (body_pass_go names m mo).2 = false) :
    ∀ n ∈ names, ∀ e, find_struct m n = some e → e.uses_body = false →
      ∀ d ∈ e.depends, (match find_struct m d with
        | some e' => e'.uses_body
        | none => false) = false := by
  induction names generalizing m mo with
  | nil => intro n hn; simp at hn
  | cons n' rest ih =>
    intro n hn e hfe hub d hd
    simp only [body_pass_go] at h
    cases hfs : find_struct m n' with
    | none =>
      rw [hfs] at h
      rcases List.mem_cons.mp hn with rfl | hr
      · rw [hfs] at hfe; exact absurd hfe (by simp)
      · exact ih m mo h n hr e hfe hub d hd
    | some e0 =>
      rw [hfs] at h
      by_cases hub0 : e0.uses_body = true
      · simp only [hub0, if_true] at h
        rcases List.mem_cons.mp hn with rfl | hr
        · rw [hfs] at hfe
          rw [Option.some.inj hfe] at hub0
          rw [hub0] at hub
          exact absurd hub (by simp)
        · exact ih m mo h n hr e hfe hub d hd
      · simp only [Bool.not_eq_true] at hub0
        simp only [hub0, Bool.false_eq_true, if_false] at h
        by_cases hany : (e0.depends.any fun d =>
            match find_struct m d with
            | some e' => e'.uses_body
            | none => false) = true
        · rw [if_pos hany] at h
          rw [bpg_gen_mono] at h
          exact absurd h (by simp)
        · simp only [Bool.not_eq_true] at hany
          simp only [hany, Bool.false_eq_true, if_false] at h
          rcases List.mem_cons.mp hn with rfl | hr
          · rw [hfs] at hfe
            rw [← Option.some.inj hfe] at hd
            have hthis := List.any_eq_false.mp hany d hd
            simp only [Bool.not_eq_true] at hthis
            exact hthis
          · exact ih m mo h n hr e hfe hub d hd

theorem body_fix_closed {m : List Structure}
    (hnd : (struct_names m).Nodup) (hfix : body_pass m = (m, false)) :
    body_closed m := by
  intro e he d hd e' hfd hub'
  by_cases hub : e.uses_body = true
  · exact hub
  · simp only [Bool.not_eq_true] at hub
    have hfe := find_struct_of_mem hnd he
    have hvisit := bpg_visits (struct_names m) m false
      (by rw [show body_pass_go (struct_names m) m false = body_pass m from rfl, hfix])
      e.data.name (List.mem_map_of_mem _ he) e hfe hub d hd
    rw [hfd] at hvisit
    simp only at hvisit
    rw [hvisit] at hub'
    exact absurd hub' (by simp)

theorem scan_body_names (m : List Structure) :
    struct_names (scan_body_usage m) = struct_names m := by
  simp only [scan_body_usage]
  rw [body_loop_names, body_seed_names]

theorem scan_body_closed {m : List Structure} (hnd : (struct_names m).Nodup) :
    body_closed (scan_body_usage m) := by
  apply body_fix_closed
  · rw [scan_body_names]; exact hnd
  · simp only [scan_body_usage]
    apply body_loop_fix
    calc count_not_body (body_seed m) ≤ (body_seed m).length := List.countP_le_length _
      _ = m.length := List.length_map _ _
      _ < m.length + 1 := Nat.lt_succ_self _

/-! ## Output propagation: the fixed point is reached -/

theorem ov_names (deps : List String) (m : List Structure) (mo : Bool) :
    struct_names (output_visit deps m mo).1 = struct_names m := by
  induction deps generalizing m mo with
  | nil => rfl
  | cons d rest ih =>
    simp only [output_visit]
    cases hfs : find_struct m d with
    | none => exact ih m mo
    | some e' =>
      by_cases ho : e'.output = true
      · simp only [ho, Bool.not_true, Bool.false_eq_true, if_false]; exact ih m mo
      · simp only [Bool.not_eq_true] at ho
        simp only [ho, Bool.not_false, if_true]
        rw [ih]
        exact struct_names_upd (fun x _ hx => hx)

theorem ov_mono (deps : List String) (m : List Structure) :
    (output_visit deps m true).2 = true := by
  induction deps generalizing m with
  | nil => rfl
  | cons d rest ih =>
    simp only [output_visit]
    cases hfs : find_struct m d with
    | none => exact ih m
    | some e' =>
      by_cases ho : e'.output = true
      · simp only [ho, Bool.not_true, Bool.false_eq_true, if_false]; exact ih m
      · simp only [Bool.not_eq_true] at ho
        simp only [ho, Bool.not_false, if_true]
        exact ih _

theorem ov_no_change (deps : List String) (m : List Structure) (mo : Bool)
    (h : (output_visit deps m mo).2 = false) :
    (output_visit deps m mo).1 = m ∧ mo = false
    ∧ ∀ d ∈ deps, ∀ e', find_struct m d = some e' → e'.output = true := by
  induction deps generalizing m mo with
  | nil => exact ⟨rfl, h, by simp⟩
  | cons d rest ih =>
    simp only [output_visit] at h ⊢
    cases hfs : find_struct m d with
    | none =>
      rw [hfs] at h
      rcases ih m mo h with ⟨h1, h2, h3⟩
      refine ⟨h1, h2, ?_⟩
      intro d' hd' e' hfe'
      rcases List.mem_cons.mp hd' with rfl | hr
      · rw [hfs] at hfe'; exact absurd hfe' (by simp)
      · exact h3 d' hr e' hfe'
    | some e0 =>
      rw [hfs] at h
      by_cases ho : e0.output = true
      · simp only [ho, Bool.not_true, Bool.false_eq_true, if_false] at h ⊢
        rcases ih m mo h with ⟨h1, h2, h3⟩
        refine ⟨h1, h2, ?_⟩
        intro d' hd' e' hfe'
        rcases List.mem_cons.mp hd' with rfl | hr
        · rw [hfs] at hfe'; rw [← Option.some.inj hfe']; exact ho
        · exact h3 d' hr e' hfe'
      · simp only [Bool.not_eq_true] at ho
        simp only [ho, Bool.not_false, if_true] at h
        rw [ov_mono] at h
        exact absurd h (by simp)

theorem count_not_output_upd_le (m : List Structure) (n : String) :
    count_not_output (upd_struct m n (fun x => { x with output := true })) ≤ count_not_output m := by
  induction m with
  | nil => exact Nat.le_refl _
  | cons x rest ih =>
    simp only [upd_struct, count_not_output, List.map_cons, List.countP_cons] at *
    by_cases hx : x.data.name = n
    · simp only [hx, if_true]
      exact Nat.add_le_add ih (by simp)
    · simp only [hx, if_false]
      exact Nat.add_le_add ih (Nat.le_refl _)

theorem count_not_output_upd_lt {m : List Structure} {n : String} {e : Structure}
    (hf : find_struct m n = some e) (ho : e.output = false) :
    count_not_output (upd_struct m n (fun x => { x with output := true })) < count_not_output m := by
  induction m with
  | nil => simp [find_struct] at hf
  | cons x rest ih =>
    simp only [find_struct] at hf
    simp only [upd_struct, count_not_output, List.map_cons, List.countP_cons]
    by_cases hx : x.data.name = n
    · rw [if_pos hx] at hf
      have hxe : x = e := Option.some.inj hf
      simp only [hx, if_true]
      have h1 : (!({ x with output := true } : Structure).output) = false := rfl
      have h2 : (!x.output) = true := by rw [hxe, ho]; rfl
      rw [h1, h2]
      simp only [Bool.false_eq_true, if_false, if_true]
      have hle := count_not_output_upd_le rest n
      simp only [count_not_output, upd_struct] at hle
      omega
    · rw [if_neg hx] at hf
      simp only [hx, if_false]
      have hlt := ih hf
      simp only [count_not_output, upd_struct] at hlt
      omega

theorem ov_count (deps : List String) (m : List Structure) (mo : Bool) :
    count_not_output (output_visit deps m mo).1 ≤ count_not_output m := by
  induction deps generalizing m mo with
  | nil => exact Nat.le_refl _
  | cons d rest ih =>
    simp only [output_visit]
    cases hfs : find_struct m d with
    | none => exact ih m mo
    | some e' =>
      by_cases ho : e'.output = true
      · simp only [ho, Bool.not_true, Bool.false_eq_true, if_false]; exact ih m mo
      · simp only [Bool.not_eq_true] at ho
        simp only [ho, Bool.not_false, if_true]
        exact Nat.le_trans (ih _ true) (count_not_output_upd_le m d)

theorem ov_count_lt (deps : List String) (m : List Structure) (mo : Bool)
    (hmo : mo = false) (hgen : (output_visit deps m mo).2 = true) :
    count_not_output (output_visit deps m mo).1 < count_not_output m := by
  induction deps generalizing m mo with
  | nil => subst hmo; simp only [output_visit] at hgen; exact absurd hgen (by simp)
  | cons d rest ih =>
    simp only [output_visit] at hgen ⊢
    cases hfs : find_struct m d with
    | none => rw [hfs] at hgen; exact ih m mo hmo hgen
    | some e' =>
      rw [hfs] at hgen
      by_cases ho : e'.output = true
      · simp only [ho, Bool.not_true, Bool.false_eq_true, if_false] at hgen ⊢
        exact ih m mo hmo hgen
      · simp only [Bool.not_eq_true] at ho
        simp only [ho, Bool.not_false, if_true]
        calc count_not_output (output_visit rest
              (upd_struct m d (fun x => { x with output := true })) true).1
            ≤ count_not_output (upd_struct m d (fun x => { x with output := true })) :=
              ov_count _ _ _
          _ < count_not_output m := count_not_output_upd_lt hfs ho

theorem opg_names (names : List String) (m : List Structure) (mo : Bool) :
    struct_names (output_pass_go names m mo).1 = struct_names m := by
  induction names generalizing m mo with
  | nil => rfl
  | cons n rest ih =>
    simp only [output_pass_go]
    cases hfs : find_struct m n with
    | none => exact ih m mo
    | some e =>
      by_cases ho : e.output = true
      · simp only [ho, if_true]
        rw [ih]
        exact ov_names _ _ _
      · simp only [Bool.not_eq_true] at ho
        simp only [ho, Bool.false_eq_true, if_false]
        exact ih m mo

theorem opg_mono (names : List String) (m : List Structure) :
    (output_pass_go names m true).2 = true := by
  induction names generalizing m with
  | nil => rfl
  | cons n rest ih =>
    simp only [output_pass_go]
    cases hfs : find_struct m n with
    | none => exact ih m
    | some e =>
      by_cases ho : e.output = true
      · simp only [ho, if_true]
        have hv := ov_mono e.depends m
        rcases hov : output_visit e.depends m true with ⟨m', b⟩
        rw [hov] at hv
        simp only at hv
        subst hv
        exact ih m'
      · simp only [Bool.not_eq_true] at ho
        simp only [ho, Bool.false_eq_true, if_false]
        exact ih m

theorem opg_no_change (names : List String) (m : List Structure) (mo : Bool)
    (h : (output_pass_go names m mo).2 = false) :
    (output_pass_go names m mo).1 = m ∧ mo = false := by
  induction names generalizing m mo with
  | nil => exact ⟨rfl, h⟩
  | cons n rest ih =>
    simp only [output_pass_go] at h ⊢
    cases hfs : find_struct m n with
    | none => rw [hfs] at h; exact ih m mo h
    | some e =>
      rw [hfs] at h
      by_cases ho : e.output = true
      · simp only [ho, if_true] at h ⊢
        rcases hov : output_visit e.depends m mo with ⟨m', b⟩
        rw [hov] at h
        simp only at h ⊢
        rcases ih m' b h with ⟨h1, h2⟩
        subst h2
        rcases ov_no_change e.depends m mo (by rw [hov]) with ⟨hv1, hv2, _⟩
        rw [hov] at hv1
        simp only at hv1
        subst hv1
        exact ⟨h1, hv2⟩
      · simp only [Bool.not_eq_true] at ho
        simp only [ho, Bool.false_eq_true, if_false] at h ⊢
        exact ih m mo h

theorem opg_count (names : List String) (m : List Structure) (mo : Bool) :
    count_not_output (output_pass_go names m mo).1 ≤ count_not_output m
    ∧ (mo = false → (output_pass_go names m mo).2 = true →
        count_not_output (output_pass_go names m mo).1 < count_not_output m) := by
  induction names generalizing m mo with
  | nil =>
    refine ⟨Nat.le_refl _, fun hmo hgen => ?_⟩
    simp only [output_pass_go] at hgen
    rw [hmo] at hgen
    exact absurd hgen (by simp)
  | cons n rest ih =>
    simp only [output_pass_go]
    cases hfs : find_struct m n with
    | none => exact ih m mo
    | some e =>
      by_cases ho : e.output = true
      · simp only [ho, if_true]
        rcases hov : output_visit e.depends m mo with ⟨m', b⟩
        simp only
        have hle1 : count_not_output m' ≤ count_not_output m := by
          have := ov_count e.depends m mo
          rw [hov] at this
          exact this
        refine ⟨Nat.le_trans (ih m' b).1 hle1, fun hmo hgen => ?_⟩
        by_cases hb : b = true
        · subst hb
          have hlt : count_not_output m' < count_not_output m := by
            have := ov_count_lt e.depends m mo hmo (by rw [hov])
            rw [hov] at this
            exact this
          exact Nat.lt_of_le_of_lt (ih m' true).1 hlt
        · simp only [Bool.not_eq_true] at hb
          subst hb
          exact Nat.lt_of_lt_of_le ((ih m' false).2 rfl hgen) hle1
      · simp only [Bool.not_eq_true] at ho
        simp only [ho, Bool.false_eq_true, if_false]
        exact ih m mo

theorem output_loop_names (fuel : Nat) (m : List Structure) :
    struct_names (output_loop fuel m) = struct_names m := by
  induction fuel generalizing m with
  | zero => rfl
  | succ k ih =>
    simp only [output_loop]
    by_cases h : (output_pass m).2 = true
    · rw [if_pos h, ih]; exact opg_names _ _ _
    · simp only [Bool.not_eq_true] at h
      rw [h]
      simp only [Bool.false_eq_true, if_false]
      exact opg_names _ _ _

theorem output_loop_fix (fuel : Nat) (m : List Structure)
    (hfuel : count_not_output m < fuel) :
    output_pass (output_loop fuel m) = (output_loop fuel m, false) := by
  induction fuel generalizing m with
  | zero => omega
  | succ k ih =>
    simp only [output_loop]
    by_cases h : (output_pass m).2 = true
    · rw [if_pos h]
      apply ih
      have := (opg_count (struct_names m) m false).2 rfl h
      simp only [output_pass] at h ⊢
      omega
    · simp only [Bool.not_eq_true] at h
      rw [h]
      simp only [Bool.false_eq_true, if_false]
      have hnc := opg_no_change (struct_names m) m false h
      simp only [output_pass] at *
      rw [hnc.1]
      have heq : output_pass_go (struct_names m) m false
          = ((output_pass_go (struct_names m) m false).1,
             (output_pass_go (struct_names m) m false).2) := rfl
      rw [hnc.1, h] at heq
      exact heq

theorem opg_visits (names : List String) (m : List Structure) (mo : Bool)
    (h : (output_pass_go names m mo).2 = false) :
    ∀ n ∈ names, ∀ e, find_struct m n = some e → e.output = true →
      ∀ d ∈ e.depends, ∀ e', find_struct m d = some e' → e'.output = true := by
  induction names generalizing m mo with
  | nil => intro n hn; simp at hn
  | cons n' rest ih =>
    intro n hn e hfe ho d hd e' hfe'
    simp only [output_pass_go] at h
    cases hfs : find_struct m n' with
    | none =>
      rw [hfs] at h
      rcases List.mem_cons.mp hn with rfl | hr
      · rw [hfs] at hfe; exact absurd hfe (by simp)
      · exact ih m mo h n hr e hfe ho d hd e' hfe'
    | some e0 =>
      rw [hfs] at h
      by_cases ho0 : e0.output = true
      · simp only [ho0, if_true] at h
        rcases hov : output_visit e0.depends m mo with ⟨m', b⟩
        rw [hov] at h
        simp only at h
        rcases opg_no_change rest m' b h with ⟨_, h2⟩
        subst h2
        rcases ov_no_change e0.depends m mo (by rw [hov]) with ⟨hv1, _, hv3⟩
        rw [hov] at hv1
        simp only at hv1
        subst hv1
        rcases List.mem_cons.mp hn with rfl | hr
        · rw [hfs] at hfe
          rw [← Option.some.inj hfe] at hd
          exact hv3 d hd e' hfe'
        · exact ih m' false h n hr e hfe ho d hd e' hfe'
      · simp only [Bool.not_eq_true] at ho0
        simp only [ho0, Bool.false_eq_true, if_false] at h
        rcases List.mem_cons.mp hn with rfl | hr
        · rw [hfs] at hfe
          rw [← Option.some.inj hfe] at ho
          rw [ho0] at ho
          exact absurd ho (by simp)
        · exact ih m mo h n hr e hfe ho d hd e' hfe'

theorem output_fix_closed {m : List Structure}
    (hnd : (struct_names m).Nodup) (hfix : output_pass m = (m, false)) :
    output_closed m := by
  intro e he ho d hd e' hfd
  have hfe := find_struct_of_mem hnd he
  exact opg_visits (struct_names m) m false
    (by rw [show output_pass_go (struct_names m) m false = output_pass m from rfl, hfix])
    e.data.name (List.mem_map_of_mem _ he) e hfe ho d hd e' hfd

/-! ## `scan_structures`: dictionary well-formedness and both closures -/

theorem length_eq_of_names_eq {m m' : List Structure}
    (h : struct_names m = struct_names m') : m.length = m'.length := by
  have h1 : (struct_names m).length = (struct_names m').length := by rw [h]
  simpa [struct_names] using h1

theorem dict_insert_nodup {m : List Structure} {e : Structure}
    (h : (struct_names m).Nodup) : (struct_names (dict_insert m e)).Nodup := by
  simp only [dict_insert]
  by_cases hc : contains_struct m e.data.name = true
  · rw [if_pos hc]
    rw [@struct_names_upd m e.data.name (fun _ => e) (fun x _ _ => rfl)]
    exact h
  · rw [if_neg hc]
    have : struct_names (m ++ [e]) = struct_names m ++ [e.data.name] := by
      simp [struct_names]
    rw [this]
    apply List.Nodup.append h (List.nodup_singleton _)
    intro a ha hb
    simp only [List.mem_singleton] at hb
    subst hb
    exact hc (contains_struct_iff.mpr ha)

theorem build_structs_nodup (sds : List StructData) (m : List Structure)
    (h : (struct_names m).Nodup) :
    (struct_names (sds.foldl (fun m d => dict_insert m (Structure.init d)) m)).Nodup := by
  induction sds generalizing m with
  | nil => exact h
  | cons d rest ih =>
    simp only [List.foldl_cons]
    exact ih _ (dict_insert_nodup h)

theorem seed_req_names (m : List Structure) (r : Request) :
    struct_names (output_seed_req m r) = struct_names m := by
  rcases hro : r.out with _ | o
  · simp [output_seed_req, hro]
  · rcases hos : o.struct with _ | sn
    · simp [output_seed_req, hro, hos]
    · simp only [output_seed_req, hro, hos]
      by_cases hc : contains_struct m sn = true
      · rw [if_pos hc]
        exact struct_names_upd (fun x _ hx => hx)
      · rw [if_neg hc]

theorem seed_reqs_names (rs : List Request) (m : List Structure) :
    struct_names (rs.foldl output_seed_req m) = struct_names m := by
  induction rs generalizing m with
  | nil => rfl
  | cons r rest ih =>
    simp only [List.foldl_cons]
    rw [ih, seed_req_names]

theorem output_seed_names (api : Api) (m : List Structure) :
    struct_names (output_seed api m) = struct_names m := by
  simp only [output_seed]
  induction api.objects generalizing m with
  | nil => rfl
  | cons ob rest ih =>
    simp only [List.foldl_cons]
    rw [ih, seed_reqs_names]

theorem scan_output_names (api : Api) (m : List Structure) :
    struct_names (scan_output_usage api m) = struct_names m := by
  simp only [scan_output_usage]
  rw [output_loop_names, output_seed_names]

theorem scan_structures_names (api : Api) :
    struct_names (scan_structures api)
      = struct_names (api.structures.foldl (fun m d => dict_insert m (Structure.init d)) []) := by
  simp only [scan_structures]
  rw [scan_output_names, scan_body_names]

theorem scan_structures_nodup (api : Api) :
    (struct_names (scan_structures api)).Nodup := by
  rw [scan_structures_names]
  exact build_structs_nodup _ [] (by simp [struct_names])

/-- The projection that the body-usage closure depends on. -/
def pview (e : Structure) : String × List String × Bool :=
  (e.data.name, e.depends, e.uses_body)

theorem body_view_eq_map (m : List Structure) : body_view m = m.map pview := rfl

theorem body_view_upd {m : List Structure} {n : String} {f : Structure → Structure}
    (hf : ∀ x, pview (f x) = pview x) :
    body_view (upd_struct m n f) = body_view m := by
  simp only [body_view_eq_map, upd_struct, List.map_map]
  apply List.map_congr_left
  intro x _
  by_cases hx : x.data.name = n
  · simp [hx, hf]
  · simp [hx]

theorem body_view_seed_req (m : List Structure) (r : Request) :
    body_view (output_seed_req m r) = body_view m := by
  rcases hro : r.out with _ | o
  · simp [output_seed_req, hro]
  · rcases hos : o.struct with _ | sn
    · simp [output_seed_req, hro, hos]
    · simp only [output_seed_req, hro, hos]
      by_cases hc : contains_struct m sn = true
      · rw [if_pos hc]
        exact body_view_upd (fun x => rfl)
      · rw [if_neg hc]

theorem body_view_seed_reqs (rs : List Request) (m : List Structure) :
    body_view (rs.foldl output_seed_req m) = body_view m := by
  induction rs generalizing m with
  | nil => rfl
  | cons r rest ih =>
    simp only [List.foldl_cons]
    rw [ih, body_view_seed_req]

theorem body_view_output_seed (api : Api) (m : List Structure) :
    body_view (output_seed api m) = body_view m := by
  simp only [output_seed]
  induction api.objects generalizing m with
  | nil => rfl
  | cons ob rest ih =>
    simp only [List.foldl_cons]
    rw [ih, body_view_seed_reqs]

theorem body_view_ov (deps : List String) (m : List Structure) (mo : Bool) :
    body_view (output_visit deps m mo).1 = body_view m := by
  induction deps generalizing m mo with
  | nil => rfl
  | cons d rest ih =>
    simp only [output_visit]
    cases hfs : find_struct m d with
    | none => exact ih m mo
    | some e' =>
      by_cases ho : e'.output = true
      · simp only [ho, Bool.not_true, Bool.false_eq_true, if_false]; exact ih m mo
      · simp only [Bool.not_eq_true] at ho
        simp only [ho, Bool.not_false, if_true]
        rw [ih]
        exact body_view_upd (fun x => rfl)

theorem body_view_opg (names : List String) (m : List Structure) (mo : Bool) :
    body_view (output_pass_go names m mo).1 = body_view m := by
  induction names generalizing m mo with
  | nil => rfl
  | cons n rest ih =>
    simp only [output_pass_go]
    cases hfs : find_struct m n with
    | none => exact ih m mo
    | some e =>
      by_cases ho : e.output = true
      · simp only [ho, if_true]
        rw [ih]
        exact body_view_ov _ _ _
      · simp only [Bool.not_eq_true] at ho
        simp only [ho, Bool.false_eq_true, if_false]
        exact ih m mo

theorem body_view_output_loop (fuel : Nat) (m : List Structure) :
    body_view (output_loop fuel m) = body_view m := by
  induction fuel generalizing m with
  | zero => rfl
  | succ k ih =>
    simp only [output_loop]
    by_cases h : (output_pass m).2 = true
    · rw [if_pos h, ih]; exact body_view_opg _ _ _
    · simp only [Bool.not_eq_true] at h
      rw [h]
      simp only [Bool.false_eq_true, if_false]
      exact body_view_opg _ _ _

theorem find_struct_pview {m m' : List Structure}
    (h : body_view m = body_view m') (n : String) :
    (find_struct m n).map pview = (find_struct m' n).map pview := by
  induction m generalizing m' with
  | nil =>
    have : m' = [] := by
      simpa [body_view_eq_map] using h.symm
    subst this
    rfl
  | cons x rest ih =>
    cases m' with
    | nil => simp [body_view_eq_map] at h
    | cons y rest' =>
      simp only [body_view_eq_map, List.map_cons, List.cons.injEq] at h
      have hname : x.data.name = y.data.name := by
        have := h.1
        simp only [pview, Prod.mk.injEq] at this
        exact this.1
      by_cases hx : x.data.name = n
      · simp only [find_struct, hx, if_true]
        rw [hname] at hx
        simp only [find_struct, hx, if_true, Option.map_some]
        exact congrArg some h.1
      · simp only [find_struct, hx, if_false]
        have hy : ¬(y.data.name = n) := by rw [← hname]; exact hx
        simp only [find_struct, hy, if_false]
        exact ih (by simpa [body_view_eq_map] using h.2)

theorem body_closed_of_view {m m' : List Structure}
    (h : body_view m = body_view m') (hc : body_closed m) : body_closed m' := by
  intro e' he' d hd e₂' hfd hub
  have hmem : pview e' ∈ body_view m' := by
    simp only [body_view_eq_map]
    exact List.mem_map_of_mem _ he'
  rw [← h] at hmem
  simp only [body_view_eq_map] at hmem
  rcases List.mem_map.mp hmem with ⟨e, he, hpe⟩
  have hfind := find_struct_pview h d
  rw [hfd] at hfind
  cases hfm : find_struct m d with
  | none => rw [hfm] at hfind; simp at hfind
  | some e₂ =>
    rw [hfm] at hfind
    simp only [Option.map_some'] at hfind
    have hdeps : d ∈ e.depends := by
      have : e.depends = e'.depends := by
        simp only [pview, Prod.mk.injEq] at hpe
        exact hpe.2.1
      rw [this]; exact hd
    have hub₂ : e₂.uses_body = true := by
      have : e₂.uses_body = e₂'.uses_body := by
        simp only [pview, Option.some.injEq, Prod.mk.injEq] at hfind
        exact hfind.2.2
      rw [this]; exact hub
    have := hc e he d hdeps e₂ hfm hub₂
    simp only [pview, Prod.mk.injEq] at hpe
    rw [← hpe.2.2]; exact this

theorem scan_structures_body_closed (api : Api) :
    body_closed (scan_structures api) := by
  have hnd : (struct_names (api.structures.foldl
      (fun m d => dict_insert m (Structure.init d)) [])).Nodup :=
    build_structs_nodup _ [] (by simp [struct_names])
  have hc : body_closed (scan_body_usage
      (api.structures.foldl (fun m d => dict_insert m (Structure.init d)) [])) :=
    scan_body_closed hnd
  simp only [scan_structures, scan_output_usage]
  apply body_closed_of_view _ hc
  rw [body_view_output_loop, body_view_output_seed]

theorem scan_structures_output_closed (api : Api) :
    output_closed (scan_structures api) := by
  have hnd := scan_structures_nodup api
  simp only [scan_structures, scan_output_usage] at hnd ⊢
  apply output_fix_closed hnd
  apply output_loop_fix
  set mb := scan_body_usage (api.structures.foldl
    (fun m d => dict_insert m (Structure.init d)) []) with hmb
  have hlen : (output_seed api mb).length = mb.length :=
    length_eq_of_names_eq (output_seed_names api mb)
  calc count_not_output (output_seed api mb) ≤ (output_seed api mb).length :=
        List.countP_le_length _
    _ = mb.length := hlen
    _ < mb.length + 1 := Nat.lt_succ_self _

/-! ## `generate_structures`: shape of `Structure.generate` -/

theorem generate_cases (e : Structure) :
    ((Structure.generate e).err = none
      ∧ (Structure.generate e).self = { e with generated := true })
    ∨ ((∃ err, (Structure.generate e).err = some err)
      ∧ (Structure.generate e).self = e) := by
  simp only [Structure.generate]
  cases hc : (generate_class e.data).2 with
  | some err => right; exact ⟨⟨err, rfl⟩, rfl⟩
  | none =>
    by_cases ho : e.output = true
    · simp only [ho, if_true]
      rcases hs : generate_schema e with ⟨stxt, serr⟩
      cases serr with
      | some err => right; exact ⟨⟨err, rfl⟩, rfl⟩
      | none => left; exact ⟨rfl, rfl⟩
    · simp only [ho, if_false]
      left; exact ⟨rfl, rfl⟩

theorem generate_self_of_err_none {e : Structure} (h : (Structure.generate e).err = none) :
    (Structure.generate e).self = { e with generated := true } := by
  rcases generate_cases e with ⟨_, hself⟩ | ⟨⟨err, herr⟩, _⟩
  · exact hself
  · rw [herr] at h; exact absurd h (by simp)

theorem generate_self_of_err_some {e : Structure} {err : GenError}
    (h : (Structure.generate e).err = some err) :
    (Structure.generate e).self = e := by
  rcases generate_cases e with ⟨herr, _⟩ | ⟨_, hself⟩
  · rw [herr] at h; exact absurd h (by simp)
  · exact hself

theorem generate_self_name (e : Structure) :
    (Structure.generate e).self.data.name = e.data.name := by
  cases herr : (Structure.generate e).err with
  | none => rw [generate_self_of_err_none herr]
  | some err => rw [generate_self_of_err_some herr]

theorem generate_self_depends (e : Structure) :
    (Structure.generate e).self.depends = e.depends := by
  cases herr : (Structure.generate e).err with
  | none => rw [generate_self_of_err_none herr]
  | some err => rw [generate_self_of_err_some herr]

theorem generate_self_data (e : Structure) :
    (Structure.generate e).self.data = e.data := by
  cases herr : (Structure.generate e).err with
  | none => rw [generate_self_of_err_none herr]
  | some err => rw [generate_self_of_err_some herr]

/-- `generate` is fatal-free as soon as class and schema emission are. -/
theorem generate_err_none {e : Structure}
    (hc : (generate_class e.data).2 = none)
    (hs : (generate_schema_fields e.data.fields).2.2 = none) :
    (Structure.generate e).err = none := by
  simp only [Structure.generate, hc]
  by_cases ho : e.output = true
  · simp only [ho, if_true]
    rcases hsf : generate_schema_fields e.data.fields with ⟨ptxt, req, serr⟩
    rw [hsf] at hs
    simp only at hs
    subst hs
    simp [generate_schema, hsf]
  · simp [ho]

/-! ## `generate_structures`: the emission loop -/

theorem count_ungen_upd_le {m : List Structure} {n : String} {e' : Structure}
    (hgen : e'.generated = true) :
    count_ungen (upd_struct m n (fun _ => e')) ≤ count_ungen m := by
  induction m with
  | nil => exact Nat.le_refl _
  | cons x rest ih =>
    simp only [upd_struct, count_ungen, List.map_cons, List.countP_cons] at *
    by_cases hx : x.data.name = n
    · simp only [hx, if_true]
      have : (!e'.generated) = false := by rw [hgen]; rfl
      rw [this]
      simp only [Bool.false_eq_true, if_false]
      omega
    · simp only [hx, if_false]
      omega

theorem count_ungen_upd_lt {m : List Structure} {n : String} {e e' : Structure}
    (hf : find_struct m n = some e) (he : e.generated = false) (hgen : e'.generated = true) :
    count_ungen (upd_struct m n (fun _ => e')) < count_ungen m := by
  induction m with
  | nil => simp [find_struct] at hf
  | cons x rest ih =>
    simp only [find_struct] at hf
    simp only [upd_struct, count_ungen, List.map_cons, List.countP_cons]
    by_cases hx : x.data.name = n
    · rw [if_pos hx] at hf
      have hxe : x = e := Option.some.inj hf
      simp only [hx, if_true]
      have h1 : (!e'.generated) = false := by rw [hgen]; rfl
      have h2 : (!x.generated) = true := by rw [hxe, he]; rfl
      rw [h1, h2]
      simp only [Bool.false_eq_true, if_false, if_true]
      have hle := @count_ungen_upd_le rest n e' hgen
      simp only [count_ungen, upd_struct] at hle
      omega
    · rw [if_neg hx] at hf
      simp only [hx, if_false]
      have hlt := ih hf
      simp only [count_ungen, upd_struct] at hlt
      omega

theorem gp_mono (names : List String) (st : GenPassState) (h : st.gen = true) :
    (gen_pass_go names st).gen = true := by
  induction names generalizing st with
  | nil => exact h
  | cons n rest ih =>
    simp only [gen_pass_go]
    cases hfs : find_struct st.structs n with
    | none => exact ih st h
    | some e =>
      by_cases hg : e.generated = true
      · simp only [hg, if_true]; exact ih st h
      · simp only [Bool.not_eq_true] at hg
        simp only [hg, Bool.false_eq_true, if_false]
        by_cases hany : (e.depends.any fun d =>
            match find_struct st.structs d with
            | some e' => !e'.generated
            | none => false) = true
        · simp only [hany, if_true]; exact ih st h
        · simp only [Bool.not_eq_true] at hany
          simp only [hany, Bool.false_eq_true, if_false]
          cases herr : (Structure.generate e).err with
          | some err => simp [herr, h]
          | none => simp only [herr]; exact ih _ rfl

theorem gp_names (names : List String) (st : GenPassState) :
    struct_names (gen_pass_go names st).structs = struct_names st.structs := by
  induction names generalizing st with
  | nil => rfl
  | cons n rest ih =>
    simp only [gen_pass_go]
    cases hfs : find_struct st.structs n with
    | none => exact ih st
    | some e =>
      by_cases hg : e.generated = true
      · simp only [hg, if_true]; exact ih st
      · simp only [Bool.not_eq_true] at hg
        simp only [hg, Bool.false_eq_true, if_false]
        by_cases hany : (e.depends.any fun d =>
            match find_struct st.structs d with
            | some e' => !e'.generated
            | none => false) = true
        · simp only [hany, if_true]; exact ih st
        · simp only [Bool.not_eq_true] at hany
          simp only [hany, Bool.false_eq_true, if_false]
          have hname : ∀ x ∈ st.structs, x.data.name = n →
              ((fun _ => (Structure.generate e).self) x).data.name = n := by
            intro x _ _
            rw [generate_self_name]
            exact (mem_of_find_struct hfs).2
          cases herr : (Structure.generate e).err with
          | some err =>
            simp only [herr]
            exact struct_names_upd hname
          | none =>
            simp only [herr]
            rw [ih]
            exact struct_names_upd hname

theorem gp_no_change (names : List String) (st : GenPassState)
    (hsterr : st.err = none)
    (herr : (gen_pass_go names st).err = none) (hgen : (gen_pass_go names st).gen = false) :
    gen_pass_go names st = st ∧ st.gen = false := by
  induction names generalizing st with
  | nil => exact ⟨rfl, hgen⟩
  | cons n rest ih =>
    simp only [gen_pass_go] at herr hgen ⊢
    cases hfs : find_struct st.structs n with
    | none => rw [hfs] at herr hgen; exact ih st hsterr herr hgen
    | some e =>
      rw [hfs] at herr hgen
      by_cases hg : e.generated = true
      · simp only [hg, if_true] at herr hgen ⊢; exact ih st hsterr herr hgen
      · simp only [Bool.not_eq_true] at hg
        simp only [hg, Bool.false_eq_true, if_false] at herr hgen ⊢
        by_cases hany : (e.depends.any fun d =>
            match find_struct st.structs d with
            | some e' => !e'.generated
            | none => false) = true
        · simp only [hany, if_true] at herr hgen ⊢
          exact ih st hsterr herr hgen
        · simp only [Bool.not_eq_true] at hany
          simp only [hany, Bool.false_eq_true, if_false] at herr hgen ⊢
          cases hge : (Structure.generate e).err with
          | some err => simp [hge] at herr
          | none =>
            simp only [hge] at herr hgen ⊢
            rw [gp_mono rest _ rfl] at hgen
            exact absurd hgen (by simp)

theorem gp_count (names : List String) (st : GenPassState)
    (herr : (gen_pass_go names st).err = none) :
    count_ungen (gen_pass_go names st).structs ≤ count_ungen st.structs
    ∧ (st.gen = false → (gen_pass_go names st).gen = true →
        count_ungen (gen_pass_go names st).structs < count_ungen st.structs) := by
  induction names generalizing st with
  | nil =>
    refine ⟨Nat.le_refl _, fun hmo hgen => ?_⟩
    simp only [gen_pass_go] at hgen
    rw [hmo] at hgen
    exact absurd hgen (by simp)
  | cons n rest ih =>
    simp only [gen_pass_go] at herr ⊢
    cases hfs : find_struct st.structs n with
    | none => rw [hfs] at herr; exact ih st herr
    | some e =>
      rw [hfs] at herr
      by_cases hg : e.generated = true
      · simp only [hg, if_true] at herr ⊢; exact ih st herr
      · simp only [Bool.not_eq_true] at hg
        simp only [hg, Bool.false_eq_true, if_false] at herr ⊢
        by_cases hany : (e.depends.any fun d =>
            match find_struct st.structs d with
            | some e' => !e'.generated
            | none => false) = true
        · simp only [hany, if_true] at herr ⊢; exact ih st herr
        · simp only [Bool.not_eq_true] at hany
          simp only [hany, Bool.false_eq_true, if_false] at herr ⊢
          cases hge : (Structure.generate e).err with
          | some err => simp [hge] at herr
          | none =>
            simp only [hge] at herr ⊢
            have hself := generate_self_of_err_none hge
            have hlt : count_ungen (upd_struct st.structs n
                (fun _ => (Structure.generate e).self)) < count_ungen st.structs := by
              rw [hself]
              exact count_ungen_upd_lt hfs hg rfl
            have hrec := ih { st with
              structs := upd_struct st.structs n (fun _ => (Structure.generate e).self),
              tOut := st.tOut ++ (Structure.generate e).tOut,
              sOut := st.sOut ++ (Structure.generate e).sOut,
              order := st.order ++ [n], gen := true } herr
            simp only at hrec
            exact ⟨Nat.le_trans hrec.1 (Nat.le_of_lt hlt), fun _ _ =>
              Nat.lt_of_le_of_lt hrec.1 hlt⟩

/-- A `GenPassState` with `gen` already false is unchanged by clearing it. -/
theorem gen_state_clear (st : GenPassState) (h : st.gen = false) :
    { st with gen := false } = st := by
  cases st
  simp only at h
  simp [h]

theorem gen_loop_succ (k : Nat) (st : GenPassState) :
    gen_loop (k + 1) st =
      (if (gen_pass_go (struct_names st.structs) { st with gen := false }).err = none then
        (if (gen_pass_go (struct_names st.structs) { st with gen := false }).gen = true then
          gen_loop k (gen_pass_go (struct_names st.structs) { st with gen := false })
        else gen_pass_go (struct_names st.structs) { st with gen := false })
      else gen_pass_go (struct_names st.structs) { st with gen := false }) := by
  simp only [gen_loop]
  rcases h : (gen_pass_go (struct_names st.structs) { st with gen := false }).err with _ | e
  · simp [h]
  · simp [h]

theorem gen_loop_fix (fuel : Nat) (st : GenPassState)
    (hfuel : count_ungen st.structs < fuel)
    (hsterr : st.err = none)
    (herr : (gen_loop fuel st).err = none) :
    gen_pass_go (struct_names (gen_loop fuel st).structs)
        { gen_loop fuel st with gen := false }
      = { gen_loop fuel st with gen := false } := by
  induction fuel generalizing st with
  | zero => omega
  | succ k ih =>
    rw [gen_loop_succ] at herr ⊢
    by_cases hpass : (gen_pass_go (struct_names st.structs) { st with gen := false }).err = none
    · rw [if_pos hpass] at herr ⊢
      by_cases hgen : (gen_pass_go (struct_names st.structs) { st with gen := false }).gen = true
      · rw [if_pos hgen] at herr ⊢
        apply ih
        · have hcnt := gp_count (struct_names st.structs) { st with gen := false } hpass
          have := hcnt.2 rfl hgen
          simp only at this
          omega
        · exact hpass
        · exact herr
      · simp only [Bool.not_eq_true] at hgen
        rw [if_neg (by rw [hgen]; simp)] at herr ⊢
        have hnc := gp_no_change (struct_names st.structs) { st with gen := false }
          (by simp only; exact hsterr) hpass hgen
        rw [hnc.1]
        have hgf : ({ st with gen := false } : GenPassState).gen = false := rfl
        rw [gen_state_clear _ hgf]
        exact hnc.1
    · rw [if_neg hpass] at herr
      exact absurd herr hpass

theorem gp_visits (names : List String) (st : GenPassState)
    (hsterr : st.err = none) (hstgen : st.gen = false)
    (hfix : gen_pass_go names st = st) :
    ∀ n ∈ names, ∀ e, find_struct st.structs n = some e → e.generated = false →
      (e.depends.any fun d =>
        match find_struct st.structs d with
        | some e' => !e'.generated
        | none => false) = true := by
  induction names generalizing st with
  | nil => intro n hn; simp at hn
  | cons n' rest ih =>
    intro n hn e hfe hg
    simp only [gen_pass_go] at hfix
    cases hfs : find_struct st.structs n' with
    | none =>
      rw [hfs] at hfix
      rcases List.mem_cons.mp hn with rfl | hr
      · rw [hfs] at hfe; exact absurd hfe (by simp)
      · exact ih st hsterr hstgen hfix n hr e hfe hg
    | some e0 =>
      rw [hfs] at hfix
      by_cases hg0 : e0.generated = true
      · simp only [hg0, if_true] at hfix
        rcases List.mem_cons.mp hn with rfl | hr
        · rw [hfs] at hfe
          rw [← Option.some.inj hfe] at hg
          rw [hg0] at hg
          exact absurd hg (by simp)
        · exact ih st hsterr hstgen hfix n hr e hfe hg
      · simp only [Bool.not_eq_true] at hg0
        simp only [hg0, Bool.false_eq_true, if_false] at hfix
        by_cases hany : (e0.depends.any fun d =>
            match find_struct st.structs d with
            | some e' => !e'.generated
            | none => false) = true
        · simp only [hany, if_true] at hfix
          rcases List.mem_cons.mp hn with rfl | hr
          · rw [hfs] at hfe
            rw [← Option.some.inj hfe]
            exact hany
          · exact ih st hsterr hstgen hfix n hr e hfe hg
        · simp only [Bool.not_eq_true] at hany
          simp only [hany, Bool.false_eq_true, if_false] at hfix
          cases hge : (Structure.generate e0).err with
          | some err =>
            simp only [hge] at hfix
            have herr2 : st.err = some err := by rw [← hfix]
            rw [hsterr] at herr2
            exact absurd herr2 (by simp)
          | none =>
            simp only [hge] at hfix
            have hgen2 : st.gen = true := by
              rw [← hfix]
              exact gp_mono rest _ rfl
            rw [hstgen] at hgen2
            exact absurd hgen2 (by simp)

theorem mem_name_unique {m : List Structure} {n : String} {y e : Structure}
    (hnd : (struct_names m).Nodup) (hy : y ∈ m) (hyn : y.data.name = n)
    (hf : find_struct m n = some e) : y = e := by
  have := find_struct_of_mem hnd hy
  rw [hyn, hf] at this
  exact (Option.some.inj this).symm

theorem contains_struct_congr {m m' : List Structure} (h : struct_names m = struct_names m')
    (d : String) : contains_struct m d = contains_struct m' d := by
  by_cases hc : contains_struct m d = true
  · rw [hc]
    exact (contains_struct_iff.mpr (h ▸ contains_struct_iff.mp hc)).symm
  · simp only [Bool.not_eq_true] at hc
    rw [hc]
    by_cases hc' : contains_struct m' d = true
    · have := contains_struct_iff.mpr (h ▸ contains_struct_iff.mp hc')
      rw [hc] at this
      exact absurd this (by simp)
    · simp only [Bool.not_eq_true] at hc'
      rw [hc']

theorem append_singleton_split {o l1 l2 : List String} {n n0 : String}
    (h : o ++ [n] = l1 ++ n0 :: l2) :
    (∃ l2', o = l1 ++ n0 :: l2' ∧ l2 = l2' ++ [n]) ∨ (l1 = o ∧ n0 = n ∧ l2 = []) := by
  induction l1 generalizing o with
  | nil =>
    cases o with
    | nil =>
      simp only [List.nil_append] at h
      right
      exact ⟨rfl, (List.cons.inj h).1.symm, ((List.cons.inj h).2).symm⟩
    | cons a o' =>
      simp only [List.cons_append, List.nil_append] at h
      left
      exact ⟨o', by rw [(List.cons.inj h).1]; rfl,
        ((List.cons.inj h).2).symm⟩
  | cons a l1' ih =>
    cases o with
    | nil =>
      simp only [List.nil_append, List.cons_append] at h
      have := (List.cons.inj h).2
      exact absurd this (by simp)
    | cons b o' =>
      simp only [List.cons_append] at h
      have h1 := (List.cons.inj h).1
      have h2 := (List.cons.inj h).2
      rcases ih h2 with ⟨l2', hsplit, hl2⟩ | ⟨hl1, hn0, hl2⟩
      · left
        exact ⟨l2', by rw [h1, hsplit]; rfl, hl2⟩
      · right
        exact ⟨by rw [h1, hl1], hn0, hl2⟩

theorem gp_order_ok (names : List String) (st : GenPassState)
    (hnd : (struct_names st.structs).Nodup)
    (hko : order_ok st.structs st.order) :
    order_ok (gen_pass_go names st).structs (gen_pass_go names st).order := by
  induction names generalizing st with
  | nil => exact hko
  | cons n rest ih =>
    simp only [gen_pass_go]
    cases hfs : find_struct st.structs n with
    | none => exact ih st hnd hko
    | some e =>
      by_cases hg : e.generated = true
      · simp only [hg, if_true]; exact ih st hnd hko
      · simp only [Bool.not_eq_true] at hg
        simp only [hg, Bool.false_eq_true, if_false]
        by_cases hany : (e.depends.any fun d =>
            match find_struct st.structs d with
            | some e' => !e'.generated
            | none => false) = true
        · simp only [hany, if_true]; exact ih st hnd hko
        · simp only [Bool.not_eq_true] at hany
          simp only [hany, Bool.false_eq_true, if_false]
          have hnamepres : ∀ x ∈ st.structs, x.data.name = n →
              ((fun _ => (Structure.generate e).self) x).data.name = n := by
            intro x _ _
            rw [generate_self_name]
            exact (mem_of_find_struct hfs).2
          have hnames' : struct_names (upd_struct st.structs n
              (fun _ => (Structure.generate e).self)) = struct_names st.structs :=
            struct_names_upd hnamepres
          cases hge : (Structure.generate e).err with
          | some err =>
            simp only [hge]
            have hid : upd_struct st.structs n (fun _ => (Structure.generate e).self)
                = st.structs := by
              rw [generate_self_of_err_some hge]
              exact upd_struct_id hnd hfs
            simp only [hid]
            exact hko
          | none =>
            simp only [hge]
            have hself := generate_self_of_err_none hge
            have hnd2 : (struct_names (upd_struct st.structs n
                (fun _ => (Structure.generate e).self))).Nodup := by
              rw [hnames']; exact hnd
            have hEn : e.data.name = n := (mem_of_find_struct hfs).2
            have hEm : e ∈ st.structs := (mem_of_find_struct hfs).1
            have hnotin : n ∉ st.order := by
              intro hin
              have := (hko.1 e hEm).mpr (by rw [hEn]; exact hin)
              rw [hg] at this
              exact absurd this (by simp)
            have hko' : order_ok (upd_struct st.structs n
                (fun _ => (Structure.generate e).self)) (st.order ++ [n]) := by
              constructor
              · intro x hx
                rcases mem_upd_struct hx with ⟨y, hy, hxy⟩
                by_cases hyn : y.data.name = n
                · rw [hxy, if_pos hyn]
                  constructor
                  · intro _
                    rw [generate_self_name, hEn]
                    simp
                  · intro _
                    rw [hself]
                · rw [hxy, if_neg hyn]
                  rw [List.mem_append, List.mem_singleton]
                  constructor
                  · intro hgen
                    exact Or.inl ((hko.1 y hy).mp hgen)
                  · intro hmem
                    rcases hmem with hmem | hmem
                    · exact (hko.1 y hy).mpr hmem
                    · exact absurd hmem hyn
              · intro l1 n0 l2 hsplit x hx hxn0 d hd hcont
                have hcont0 : contains_struct st.structs d = true := by
                  rw [contains_struct_congr hnames'.symm d]
                  exact hcont
                rcases append_singleton_split hsplit with ⟨l2', hsp, _⟩ | ⟨hl1, hn0, _⟩
                · by_cases hn0n : n0 = n
                  · subst hn0n
                    exfalso
                    apply hnotin
                    rw [hsp]
                    exact List.mem_append.mpr (Or.inr (List.mem_cons_self _ _))
                  · rcases mem_upd_struct hx with ⟨y, hy, hxy⟩
                    by_cases hyn : y.data.name = n
                    · rw [hxy, if_pos hyn] at hxn0
                      rw [generate_self_name, hEn] at hxn0
                      exact absurd hxn0.symm hn0n
                    · rw [hxy, if_neg hyn] at hxn0 hd
                      exact hko.2 l1 n0 l2' hsp y hy hxn0 d hd hcont0
                · rw [hl1]
                  rw [hn0] at hxn0
                  rcases mem_upd_struct hx with ⟨y, hy, hxy⟩
                  by_cases hyn : y.data.name = n
                  · rw [hxy, if_pos hyn] at hd
                    rw [hself] at hd
                    simp only at hd
                    have hmatch := List.any_eq_false.mp hany d hd
                    simp only [Bool.not_eq_true] at hmatch
                    cases hfd : find_struct st.structs d with
                    | none =>
                      rw [contains_struct, hfd] at hcont0
                      exact absurd hcont0 (by simp)
                    | some e2 =>
                      rw [hfd] at hmatch
                      simp only at hmatch
                      have hgen2 : e2.generated = true := by
                        cases hge2 : e2.generated
                        · rw [hge2] at hmatch; simp at hmatch
                        · rfl
                      have := (hko.1 e2 (mem_of_find_struct hfd).1).mp hgen2
                      rw [(mem_of_find_struct hfd).2] at this
                      exact this
                  · rw [hxy, if_neg hyn] at hxn0
                    exact absurd hxn0 hyn
            exact ih _ (by simpa using hnd2) hko'

/-! ## Predicate preservation through all passes -/

theorem body_seed_pred {P : Structure → Prop} {m : List Structure}
    (hP : ∀ e, P e → P { e with uses_body := true })
    (h : ∀ e ∈ m, P e) : ∀ e ∈ body_seed m, P e := by
  intro e he
  rcases List.mem_map.mp he with ⟨y, hy, hey⟩
  by_cases hb : "Body" ∈ y.depends
  · rw [← hey, if_pos hb]; exact hP y (h y hy)
  · rw [← hey, if_neg hb]; exact h y hy

theorem bpg_pred {P : Structure → Prop}
    (hP : ∀ e, P e → P { e with uses_body := true }) (names : List String)
    (m : List Structure) (mo : Bool)
    (h : ∀ e ∈ m, P e) : ∀ e ∈ (body_pass_go names m mo).1, P e := by
  induction names generalizing m mo with
  | nil => exact h
  | cons n rest ih =>
    simp only [body_pass_go]
    cases hfs : find_struct m n with
    | none => exact ih m mo h
    | some e =>
      by_cases hub : e.uses_body = true
      · simp only [hub, if_true]; exact ih m mo h
      · simp only [Bool.not_eq_true] at hub
        simp only [hub, Bool.false_eq_true, if_false]
        by_cases hany : (e.depends.any fun d =>
            match find_struct m d with
            | some e' => e'.uses_body
            | none => false) = true
        · simp only [hany, if_true]
          exact ih _ true (upd_struct_pred h hP)
        · simp only [Bool.not_eq_true] at hany
          simp only [hany, Bool.false_eq_true, if_false]
          exact ih m mo h

theorem body_loop_pred {P : Structure → Prop}
    (hP : ∀ e, P e → P { e with uses_body := true }) (fuel : Nat) (m : List Structure)
    (h : ∀ e ∈ m, P e) : ∀ e ∈ body_loop fuel m, P e := by
  induction fuel generalizing m with
  | zero => exact h
  | succ k ih =>
    simp only [body_loop]
    by_cases hb : (body_pass m).2 = true
    · rw [if_pos hb]
      exact ih _ (bpg_pred hP _ _ _ h)
    · simp only [Bool.not_eq_true] at hb
      rw [hb]
      simp only [Bool.false_eq_true, if_false]
      exact bpg_pred hP _ _ _ h

theorem seed_req_pred {P : Structure → Prop} {m : List Structure} {r : Request}
    (hP : ∀ e (b : Bool), P e → P { e with output := true, output_array := b })
    (h : ∀ e ∈ m, P e) : ∀ e ∈ output_seed_req m r, P e := by
  rcases hro : r.out with _ | o
  · simpa [output_seed_req, hro] using h
  · rcases hos : o.struct with _ | sn
    · simpa [output_seed_req, hro, hos] using h
    · simp only [output_seed_req, hro, hos]
      by_cases hc : contains_struct m sn = true
      · rw [if_pos hc]
        exact upd_struct_pred h (fun e he => hP e _ he)
      · rw [if_neg hc]; exact h

theorem seed_reqs_pred {P : Structure → Prop}
    (hP : ∀ e (b : Bool), P e → P { e with output := true, output_array := b })
    (rs : List Request) :
    ∀ m, (∀ e ∈ m, P e) → ∀ e ∈ rs.foldl output_seed_req m, P e := by
  induction rs with
  | nil => intro m h; exact h
  | cons r rest ih =>
    intro m h
    simp only [List.foldl_cons]
    exact ih _ (seed_req_pred hP h)

theorem output_seed_pred {P : Structure → Prop} {api : Api} {m : List Structure}
    (hP : ∀ e (b : Bool), P e → P { e with output := true, output_array := b })
    (h : ∀ e ∈ m, P e) : ∀ e ∈ output_seed api m, P e := by
  simp only [output_seed]
  have hgen : ∀ obs : List ApiObject, ∀ m, (∀ e ∈ m, P e) →
      ∀ e ∈ obs.foldl (fun m ob => ob.requests.foldl output_seed_req m) m, P e := by
    intro obs
    induction obs with
    | nil => intro m h; exact h
    | cons ob rest ih =>
      intro m h
      simp only [List.foldl_cons]
      exact ih _ (seed_reqs_pred hP ob.requests m h)
  exact hgen api.objects m h

theorem ov_pred {P : Structure → Prop}
    (hP : ∀ e, P e → P { e with output := true }) (deps : List String)
    (m : List Structure) (mo : Bool)
    (h : ∀ e ∈ m, P e) : ∀ e ∈ (output_visit deps m mo).1, P e := by
  induction deps generalizing m mo with
  | nil => exact h
  | cons d rest ih =>
    simp only [output_visit]
    cases hfs : find_struct m d with
    | none => exact ih m mo h
    | some e' =>
      by_cases ho : e'.output = true
      · simp only [ho, Bool.not_true, Bool.false_eq_true, if_false]; exact ih m mo h
      · simp only [Bool.not_eq_true] at ho
        simp only [ho, Bool.not_false, if_true]
        exact ih _ true (upd_struct_pred h hP)

theorem opg_pred {P : Structure → Prop}
    (hP : ∀ e, P e → P { e with output := true }) (names : List String)
    (m : List Structure) (mo : Bool)
    (h : ∀ e ∈ m, P e) : ∀ e ∈ (output_pass_go names m mo).1, P e := by
  induction names generalizing m mo with
  | nil => exact h
  | cons n rest ih =>
    simp only [output_pass_go]
    cases hfs : find_struct m n with
    | none => exact ih m mo h
    | some e =>
      by_cases ho : e.output = true
      · simp only [ho, if_true]
        rcases hov : output_visit e.depends m mo with ⟨m', b⟩
        have := ov_pred hP e.depends m mo h
        rw [hov] at this
        exact ih m' b this
      · simp only [Bool.not_eq_true] at ho
        simp only [ho, Bool.false_eq_true, if_false]
        exact ih m mo h

theorem output_loop_pred {P : Structure → Prop}
    (hP : ∀ e, P e → P { e with output := true }) (fuel : Nat) (m : List Structure)
    (h : ∀ e ∈ m, P e) : ∀ e ∈ output_loop fuel m, P e := by
  induction fuel generalizing m with
  | zero => exact h
  | succ k ih =>
    simp only [output_loop]
    by_cases hb : (output_pass m).2 = true
    · rw [if_pos hb]
      exact ih _ (opg_pred hP _ _ _ h)
    · simp only [Bool.not_eq_true] at hb
      rw [hb]
      simp only [Bool.false_eq_true, if_false]
      exact opg_pred hP _ _ _ h

theorem dict_insert_pred {P : Structure → Prop} {m : List Structure} {e : Structure}
    (h : ∀ x ∈ m, P x) (he : P e) : ∀ x ∈ dict_insert m e, P x := by
  simp only [dict_insert]
  by_cases hc : contains_struct m e.data.name = true
  · rw [if_pos hc]
    exact upd_struct_pred h (fun _ _ => he)
  · rw [if_neg hc]
    intro x hx
    rcases List.mem_append.mp hx with hx | hx
    · exact h x hx
    · rw [List.mem_singleton.mp hx]; exact he

theorem build_pred {P : Structure → Prop} (sds : List StructData) (m : List Structure)
    (hinit : ∀ d, P (Structure.init d)) (h : ∀ x ∈ m, P x) :
    ∀ x ∈ sds.foldl (fun m d => dict_insert m (Structure.init d)) m, P x := by
  induction sds generalizing m with
  | nil => exact h
  | cons d rest ih =>
    simp only [List.foldl_cons]
    exact ih _ (dict_insert_pred h (hinit d))

/-- Predicates stable under every flag update survive `scan_structures`. -/
theorem scan_pred {P : Structure → Prop} (api : Api)
    (hP1 : ∀ e, P e → P { e with uses_body := true })
    (hP2 : ∀ e (b : Bool), P e → P { e with output := true, output_array := b })
    (hP3 : ∀ e, P e → P { e with output := true })
    (hinit : ∀ d, P (Structure.init d)) :
    ∀ e ∈ scan_structures api, P e := by
  simp only [scan_structures, scan_output_usage, scan_body_usage]
  apply output_loop_pred hP3
  apply output_seed_pred hP2
  apply body_loop_pred hP1
  apply body_seed_pred hP1
  exact build_pred _ _ hinit (by simp)

theorem scan_structures_ungenerated (api : Api) :
    ∀ e ∈ scan_structures api, e.generated = false :=
  scan_pred api (fun _ h => h) (fun _ _ h => h) (fun _ h => h) (fun _ => rfl)

theorem scan_structures_deps_ok (api : Api) :
    ∀ e ∈ scan_structures api, e.depends = e.data.fields.filterMap (fun fl => fl.struct) :=
  scan_pred api (fun _ h => h) (fun _ _ h => h) (fun _ h => h) (fun _ => rfl)

theorem gp_pred {P : Structure → Prop}
    (hP : ∀ e, P e → P { e with generated := true }) (names : List String)
    (st : GenPassState)
    (h : ∀ e ∈ st.structs, P e) : ∀ e ∈ (gen_pass_go names st).structs, P e := by
  induction names generalizing st with
  | nil => exact h
  | cons n rest ih =>
    simp only [gen_pass_go]
    cases hfs : find_struct st.structs n with
    | none => exact ih st h
    | some e =>
      by_cases hg : e.generated = true
      · simp only [hg, if_true]; exact ih st h
      · simp only [Bool.not_eq_true] at hg
        simp only [hg, Bool.false_eq_true, if_false]
        by_cases hany : (e.depends.any fun d =>
            match find_struct st.structs d with
            | some e' => !e'.generated
            | none => false) = true
        · simp only [hany, if_true]; exact ih st h
        · simp only [Bool.not_eq_true] at hany
          simp only [hany, Bool.false_eq_true, if_false]
          have hPe := h e (mem_of_find_struct hfs).1
          have hPself : P (Structure.generate e).self := by
            rcases generate_cases e with ⟨_, hself⟩ | ⟨_, hself⟩
            · rw [hself]; exact hP e hPe
            · rw [hself]; exact hPe
          cases hge : (Structure.generate e).err with
          | some err =>
            simp only [hge]
            exact upd_struct_pred h (fun _ _ => hPself)
          | none =>
            simp only [hge]
            exact ih _ (upd_struct_pred h (fun _ _ => hPself))

theorem gen_loop_pred {P : Structure → Prop}
    (hP : ∀ e, P e → P { e with generated := true }) (fuel : Nat) (st : GenPassState)
    (h : ∀ e ∈ st.structs, P e) : ∀ e ∈ (gen_loop fuel st).structs, P e := by
  induction fuel generalizing st with
  | zero => exact h
  | succ k ih =>
    rw [gen_loop_succ]
    by_cases hpass : (gen_pass_go (struct_names st.structs) { st with gen := false }).err = none
    · rw [if_pos hpass]
      by_cases hgen : (gen_pass_go (struct_names st.structs) { st with gen := false }).gen = true
      · rw [if_pos hgen]
        exact ih _ (gp_pred hP _ _ h)
      · rw [if_neg hgen]
        exact gp_pred hP _ _ h
    · rw [if_neg hpass]
      exact gp_pred hP _ _ h

theorem gen_loop_names (fuel : Nat) (st : GenPassState) :
    struct_names (gen_loop fuel st).structs = struct_names st.structs := by
  induction fuel generalizing st with
  | zero => rfl
  | succ k ih =>
    rw [gen_loop_succ]
    by_cases hpass : (gen_pass_go (struct_names st.structs) { st with gen := false }).err = none
    · rw [if_pos hpass]
      by_cases hgen : (gen_pass_go (struct_names st.structs) { st with gen := false }).gen = true
      · rw [if_pos hgen, ih]
        exact gp_names _ _
      · rw [if_neg hgen]
        exact gp_names _ _
    · rw [if_neg hpass]
      exact gp_names _ _

theorem gen_loop_order_ok (fuel : Nat) (st : GenPassState)
    (hnd : (struct_names st.structs).Nodup)
    (hko : order_ok st.structs st.order) :
    order_ok (gen_loop fuel st).structs (gen_loop fuel st).order := by
  induction fuel generalizing st with
  | zero => exact hko
  | succ k ih =>
    rw [gen_loop_succ]
    by_cases hpass : (gen_pass_go (struct_names st.structs) { st with gen := false }).err = none
    · rw [if_pos hpass]
      by_cases hgen : (gen_pass_go (struct_names st.structs) { st with gen := false }).gen = true
      · rw [if_pos hgen]
        apply ih
        · rw [gp_names]; exact hnd
        · exact gp_order_ok _ _ hnd hko
      · rw [if_neg hgen]
        exact gp_order_ok _ _ hnd hko
    · rw [if_neg hpass]
      exact gp_order_ok _ _ hnd hko

theorem generate_structures_parts (m : List Structure) :
    (generate_structures m).structs
        = (gen_loop (m.length + 1) ⟨m, "", "", [], false, none⟩).structs
    ∧ (generate_structures m).order
        = (gen_loop (m.length + 1) ⟨m, "", "", [], false, none⟩).order := by
  simp only [generate_structures]
  rcases herr : (gen_loop (m.length + 1) ⟨m, "", "", [], false, none⟩).err with _ | e
  · simp only
    by_cases hl : (((gen_loop (m.length + 1)
        ⟨m, "", "", [], false, none⟩).structs.filter
          (fun e => !e.generated)).map (fun e => e.data.name)).length > 0
    · rw [if_pos hl]
      exact ⟨rfl, rfl⟩
    · rw [if_neg hl]
      exact ⟨rfl, rfl⟩
  · exact ⟨rfl, rfl⟩

theorem order_ok_init {m : List Structure} (hungen : ∀ e ∈ m, e.generated = false) :
    order_ok m [] := by
  constructor
  · intro e he
    rw [hungen e he]
    simp
  · intro l1 n l2 hsplit
    exact absurd hsplit.symm (List.append_ne_nil_of_right_ne_nil l1 (by simp))

/-! ## C3: topological validity of the emission order -/

/-- C3 (confirmed): for every emitted structure `S` (at position `l1.length`
of the emission order) and every struct-valued field of `S` referencing a
structure `D` present in the specification, `D` appears strictly earlier in
the emission order (it is in the prefix `l1`).  The first conjunct ties the
`depends` list to the struct-valued fields. -/
theorem c3_topological_validity (api : Api) :
    ∀ l1 n l2, (generate_structures (scan_structures api)).order = l1 ++ n :: l2 →
    ∀ e, e ∈ (generate_structures (scan_structures api)).structs → e.data.name = n →
      (e.depends = e.data.fields.filterMap (fun fl => fl.struct))
      ∧ ∀ d ∈ e.depends,
          contains_struct (generate_structures (scan_structures api)).structs d = true →
          d ∈ l1 := by
  intro l1 n l2 hsplit e hmem hname
  have hparts := generate_structures_parts (scan_structures api)
  have hnd := scan_structures_nodup api
  have hungen := scan_structures_ungenerated api
  have hko := gen_loop_order_ok ((scan_structures api).length + 1)
    ⟨scan_structures api, "", "", [], false, none⟩ hnd (order_ok_init hungen)
  rw [hparts.1] at hmem ⊢
  rw [hparts.2] at hsplit
  constructor
  · exact gen_loop_pred (fun _ h => h) _ _ (scan_structures_deps_ok api) e hmem
  · intro d hd hcont
    exact hko.2 l1 n l2 hsplit e hmem hname d hd hcont

/-! ## C5: usage-flag monotonicity -/

/-- C5 (confirmed): after `scan_structures` (both propagation passes), if a
structure named `A` depends directly or transitively on a structure named
`B`, then `B.uses_body` implies `A.uses_body` and `A.output` implies
`B.output`. -/
theorem c5_usage_flag_monotonicity (api : Api) (A B : String)
    (h : DependsOn (scan_structures api) A B) :
    ∀ eA eB, find_struct (scan_structures api) A = some eA →
      find_struct (scan_structures api) B = some eB →
      (eB.uses_body = true → eA.uses_body = true)
      ∧ (eA.output = true → eB.output = true) := by
  have hnd := scan_structures_nodup api
  have hbc := scan_structures_body_closed api
  have hoc := scan_structures_output_closed api
  have step : ∀ a b ea eb, dep_step (scan_structures api) a b →
      find_struct (scan_structures api) a = some ea →
      find_struct (scan_structures api) b = some eb →
      (eb.uses_body = true → ea.uses_body = true)
      ∧ (ea.output = true → eb.output = true) := by
    intro a b ea eb hs hfa hfb
    rcases hs with ⟨e, he, hname, hdep, _⟩
    have hfe : find_struct (scan_structures api) a = some e := by
      rw [← hname]; exact find_struct_of_mem hnd he
    have hea : ea = e := by
      rw [hfe] at hfa
      exact (Option.some.inj hfa).symm
    subst hea
    constructor
    · intro hub
      exact hbc ea he b hdep eb hfb hub
    · intro ho
      exact hoc ea he ho b hdep eb hfb
  simp only [DependsOn] at h
  induction h with
  | single hs =>
    intro eA eB hfA hfB
    exact step _ _ _ _ hs hfA hfB
  | tail hrest hs ih =>
    rename_i b c
    intro eA eC hfA hfC
    obtain ⟨e, he, hname, hdep, hcont⟩ := hs
    have hfb : find_struct (scan_structures api) b = some e := by
      rw [← hname]
      exact find_struct_of_mem hnd he
    have h1 := ih eA e hfA hfb
    have h2 := step b c e eC ⟨e, he, hname, hdep, hcont⟩ hfb hfC
    exact ⟨fun hub => h1.1 (h2.1 hub), fun ho => h2.2 (h1.2 ho)⟩

/-! ## C1: the stuck set is exactly the non-emittable names -/

theorem graph_contains_iff {m : List Structure} {d : String} :
    contains_struct m d = true ↔ ∃ p ∈ dep_graph m, p.1 = d := by
  constructor
  · intro hc
    rw [contains_struct] at hc
    cases hf : find_struct m d with
    | none => rw [hf] at hc; exact absurd hc (by simp)
    | some e =>
      refine ⟨(d, e.depends), ?_, rfl⟩
      have := mem_of_find_struct hf
      rw [← this.2]
      exact List.mem_map_of_mem _ this.1
  · intro ⟨p, hp, hp1⟩
    rcases List.mem_map.mp hp with ⟨e, he, hpe⟩
    apply contains_struct_iff.mpr
    rw [← hp1, ← hpe]
    exact List.mem_map_of_mem _ he

theorem graph_unique {m : List Structure} {n : String} {deps : List String} {e : Structure}
    (hnd : (struct_names m).Nodup) (hg : (n, deps) ∈ dep_graph m)
    (he : e ∈ m) (hen : e.data.name = n) : deps = e.depends := by
  rcases List.mem_map.mp hg with ⟨y, hy, hye⟩
  have hyn : y.data.name = n := congrArg Prod.fst hye
  have := mem_name_unique hnd hy hyn (by rw [← hen]; exact find_struct_of_mem hnd he)
  have hdeps : y.depends = deps := congrArg Prod.snd hye
  rw [← hdeps, this]

theorem dep_graph_upd {m : List Structure} {n : String} {e e' : Structure}
    (hnd : (struct_names m).Nodup) (hf : find_struct m n = some e)
    (h1 : e'.data.name = e.data.name) (h2 : e'.depends = e.depends) :
    dep_graph (upd_struct m n (fun _ => e')) = dep_graph m := by
  induction m with
  | nil => rfl
  | cons x rest ih =>
    simp only [struct_names, List.map_cons, List.nodup_cons] at hnd
    simp only [find_struct] at hf
    simp only [dep_graph, upd_struct, List.map_cons, List.map_map]
    by_cases hx : x.data.name = n
    · rw [if_pos hx] at hf ⊢
      have hxe : x = e := Option.some.inj hf
      have hrest : rest.map ((fun e => (e.data.name, e.depends)) ∘
          fun y => if y.data.name = n then e' else y) = rest.map (fun e => (e.data.name, e.depends)) := by
        apply List.map_congr_left
        intro y hy
        have hyn : ¬(y.data.name = n) := by
          intro hc
          exact hnd.1 (by rw [← hc] at hx; rw [hx]; exact List.mem_map_of_mem _ hy)
        simp [hyn]
      rw [hrest]
      congr 1
      rw [h1, h2, hxe]
    · rw [if_neg hx] at hf ⊢
      have := ih hnd.2 hf
      simp only [dep_graph, upd_struct, List.map_map] at this
      rw [this]

theorem gp_graph (names : List String) (st : GenPassState)
    (hnd : (struct_names st.structs).Nodup) :
    dep_graph (gen_pass_go names st).structs = dep_graph st.structs := by
  induction names generalizing st with
  | nil => rfl
  | cons n rest ih =>
    simp only [gen_pass_go]
    cases hfs : find_struct st.structs n with
    | none => exact ih st hnd
    | some e =>
      by_cases hg : e.generated = true
      · simp only [hg, if_true]; exact ih st hnd
      · simp only [Bool.not_eq_true] at hg
        simp only [hg, Bool.false_eq_true, if_false]
        by_cases hany : (e.depends.any fun d =>
            match find_struct st.structs d with
            | some e' => !e'.generated
            | none => false) = true
        · simp only [hany, if_true]; exact ih st hnd
        · simp only [Bool.not_eq_true] at hany
          simp only [hany, Bool.false_eq_true, if_false]
          have hupd : dep_graph (upd_struct st.structs n
              (fun _ => (Structure.generate e).self)) = dep_graph st.structs :=
            dep_graph_upd hnd hfs (generate_self_name e) (generate_self_depends e)
          have hnames2 : struct_names (upd_struct st.structs n
              (fun _ => (Structure.generate e).self)) = struct_names st.structs := by
            apply struct_names_upd
            intro x _ _
            rw [generate_self_name]
            exact (mem_of_find_struct hfs).2
          cases hge : (Structure.generate e).err with
          | some err =>
            simp only [hge]
            exact hupd
          | none =>
            simp only [hge]
            rw [ih _ (by simp only; rw [hnames2]; exact hnd)]
            exact hupd

theorem gen_loop_graph (fuel : Nat) (st : GenPassState)
    (hnd : (struct_names st.structs).Nodup) :
    dep_graph (gen_loop fuel st).structs = dep_graph st.structs := by
  induction fuel generalizing st with
  | zero => rfl
  | succ k ih =>
    rw [gen_loop_succ]
    by_cases hpass : (gen_pass_go (struct_names st.structs) { st with gen := false }).err = none
    · rw [if_pos hpass]
      by_cases hgen : (gen_pass_go (struct_names st.structs) { st with gen := false }).gen = true
      · rw [if_pos hgen]
        rw [ih _ (by rw [gp_names]; exact hnd)]
        exact gp_graph _ _ hnd
      · rw [if_neg hgen]
        exact gp_graph _ _ hnd
    · rw [if_neg hpass]
      exact gp_graph _ _ hnd

theorem gp_emittable (names : List String) (st : GenPassState)
    (hnd : (struct_names st.structs).Nodup) (g : List (String × List String))
    (hg : dep_graph st.structs = g)
    (hinv : ∀ x ∈ st.structs, x.generated = true → Emittable g x.data.name) :
    ∀ x ∈ (gen_pass_go names st).structs, x.generated = true → Emittable g x.data.name := by
  induction names generalizing st with
  | nil => exact hinv
  | cons n rest ih =>
    simp only [gen_pass_go]
    cases hfs : find_struct st.structs n with
    | none => exact ih st hnd hg hinv
    | some e =>
      by_cases hgen : e.generated = true
      · simp only [hgen, if_true]; exact ih st hnd hg hinv
      · simp only [Bool.not_eq_true] at hgen
        simp only [hgen, Bool.false_eq_true, if_false]
        by_cases hany : (e.depends.any fun d =>
            match find_struct st.structs d with
            | some e' => !e'.generated
            | none => false) = true
        · simp only [hany, if_true]; exact ih st hnd hg hinv
        · simp only [Bool.not_eq_true] at hany
          simp only [hany, Bool.false_eq_true, if_false]
          have hEn : e.data.name = n := (mem_of_find_struct hfs).2
          have hEm : e ∈ st.structs := (mem_of_find_struct hfs).1
          have hemitn : Emittable g n := by
            apply Emittable.step n e.depends
            · rw [← hg, ← hEn]
              exact List.mem_map_of_mem _ hEm
            · intro d hd hdg
              have hcont : contains_struct st.structs d = true :=
                graph_contains_iff.mpr (by rw [hg]; exact hdg)
              have hmatch := List.any_eq_false.mp hany d hd
              simp only [Bool.not_eq_true] at hmatch
              cases hfd : find_struct st.structs d with
              | none =>
                rw [contains_struct, hfd] at hcont
                exact absurd hcont (by simp)
              | some e2 =>
                rw [hfd] at hmatch
                simp only at hmatch
                have hgen2 : e2.generated = true := by
                  cases hge2 : e2.generated
                  · rw [hge2] at hmatch; simp at hmatch
                  · rfl
                have := hinv e2 (mem_of_find_struct hfd).1 hgen2
                rw [(mem_of_find_struct hfd).2] at this
                exact this
          have hinv' : ∀ x ∈ upd_struct st.structs n (fun _ => (Structure.generate e).self),
              x.generated = true → Emittable g x.data.name := by
            intro x hx hxg
            rcases mem_upd_struct hx with ⟨y, hy, hxy⟩
            by_cases hyn : y.data.name = n
            · rw [hxy] at hxg ⊢
              rw [if_pos hyn] at hxg ⊢
              rw [generate_self_name, hEn]
              exact hemitn
            · rw [hxy] at hxg ⊢
              rw [if_neg hyn] at hxg ⊢
              exact hinv y hy hxg
          have hnames2 : struct_names (upd_struct st.structs n
              (fun _ => (Structure.generate e).self)) = struct_names st.structs := by
            apply struct_names_upd
            intro x _ _
            rw [generate_self_name]
            exact hEn
          have hg2 : dep_graph (upd_struct st.structs n
              (fun _ => (Structure.generate e).self)) = g := by
            rw [dep_graph_upd hnd hfs (generate_self_name e) (generate_self_depends e)]
            exact hg
          cases hge : (Structure.generate e).err with
          | some err =>
            simp only [hge]
            exact hinv'
          | none =>
            simp only [hge]
            exact ih _ (by simp only; rw [hnames2]; exact hnd) hg2 hinv'

theorem gen_loop_emittable (fuel : Nat) (st : GenPassState)
    (hnd : (struct_names st.structs).Nodup) (g : List (String × List String))
    (hg : dep_graph st.structs = g)
    (hinv : ∀ x ∈ st.structs, x.generated = true → Emittable g x.data.name) :
    ∀ x ∈ (gen_loop fuel st).structs, x.generated = true → Emittable g x.data.name := by
  induction fuel generalizing st with
  | zero => exact hinv
  | succ k ih =>
    rw [gen_loop_succ]
    by_cases hpass : (gen_pass_go (struct_names st.structs) { st with gen := false }).err = none
    · rw [if_pos hpass]
      by_cases hgen : (gen_pass_go (struct_names st.structs) { st with gen := false }).gen = true
      · rw [if_pos hgen]
        exact ih _ (by rw [gp_names]; exact hnd)
          (by rw [gp_graph (struct_names st.structs) { st with gen := false } hnd]; exact hg)
          (gp_emittable (struct_names st.structs) { st with gen := false } hnd g hg hinv)
      · rw [if_neg hgen]
        exact gp_emittable (struct_names st.structs) { st with gen := false } hnd g hg hinv
    · rw [if_neg hpass]
      exact gp_emittable (struct_names st.structs) { st with gen := false } hnd g hg hinv

theorem emittable_generated {m : List Structure}
    (hnd : (struct_names m).Nodup)
    (hstuck : ∀ e ∈ m, e.generated = false →
      ∃ d ∈ e.depends, ∃ e', find_struct m d = some e' ∧ e'.generated = false) :
    ∀ n, Emittable (dep_graph m) n → ∀ e ∈ m, e.data.name = n → e.generated = true := by
  intro n h
  induction h with
  | step n0 deps hmem hdeps ih =>
    intro e he hen
    by_cases hg : e.generated = true
    · exact hg
    · simp only [Bool.not_eq_true] at hg
      exfalso
      rcases hstuck e he hg with ⟨d, hd, e', hfd, hg'⟩
      have hdeq : deps = e.depends := graph_unique hnd hmem he hen
      have hcont : ∃ p ∈ dep_graph m, p.1 = d :=
        graph_contains_iff.mp (by rw [contains_struct, hfd]; rfl)
      have := ih d (by rw [hdeq]; exact hd) hcont e' (mem_of_find_struct hfd).1
        (mem_of_find_struct hfd).2
      rw [hg'] at this
      exact absurd this (by simp)

theorem gp_err (names : List String) (st : GenPassState)
    (hclean : ∀ e ∈ st.structs, (generate_class e.data).2 = none
      ∧ (generate_schema_fields e.data.fields).2.2 = none)
    (hst : st.err = none) :
    (gen_pass_go names st).err = none := by
  induction names generalizing st with
  | nil => exact hst
  | cons n rest ih =>
    simp only [gen_pass_go]
    cases hfs : find_struct st.structs n with
    | none => exact ih st hclean hst
    | some e =>
      by_cases hg : e.generated = true
      · simp only [hg, if_true]; exact ih st hclean hst
      · simp only [Bool.not_eq_true] at hg
        simp only [hg, Bool.false_eq_true, if_false]
        by_cases hany : (e.depends.any fun d =>
            match find_struct st.structs d with
            | some e' => !e'.generated
            | none => false) = true
        · simp only [hany, if_true]; exact ih st hclean hst
        · simp only [Bool.not_eq_true] at hany
          simp only [hany, Bool.false_eq_true, if_false]
          have hce := hclean e (mem_of_find_struct hfs).1
          have hge : (Structure.generate e).err = none := generate_err_none hce.1 hce.2
          simp only [hge]
          have hclean' : ∀ x ∈ upd_struct st.structs n (fun _ => (Structure.generate e).self),
              (generate_class x.data).2 = none
              ∧ (generate_schema_fields x.data.fields).2.2 = none := by
            apply upd_struct_pred hclean
            intro x _
            rw [generate_self_data]
            exact hce
          exact ih _ hclean' hst

theorem gen_loop_err (fuel : Nat) (st : GenPassState)
    (hclean : ∀ e ∈ st.structs, (generate_class e.data).2 = none
      ∧ (generate_schema_fields e.data.fields).2.2 = none)
    (hst : st.err = none) :
    (gen_loop fuel st).err = none := by
  induction fuel generalizing st with
  | zero => exact hst
  | succ k ih =>
    rw [gen_loop_succ]
    have hpass : (gen_pass_go (struct_names st.structs) { st with gen := false }).err = none :=
      gp_err (struct_names st.structs) { st with gen := false } hclean hst
    rw [if_pos hpass]
    by_cases hgen : (gen_pass_go (struct_names st.structs) { st with gen := false }).gen = true
    · rw [if_pos hgen]
      apply ih
      · exact gp_pred (fun e h => h) _ _ hclean
      · exact hpass
    · rw [if_neg hgen]
      exact hpass

theorem generate_types_err_parts (api : Api) (e : GenError)
    (h : (generate_structures (scan_structures api)).err = some e) :
    (generate_types api).exit_code = 1
    ∧ (generate_types api).node_file = none
    ∧ (generate_types api).err = some e
    ∧ (generate_types api).types_file.isSome = true
    ∧ (generate_types api).schemas_file.isSome = true := by
  simp [generate_types, h]

/-- C1 (amended, proved): for every specification whose structures emit
cleanly one by one but in which some structure is never emittable (its
struct-dependencies never stabilise), the run fails with `DependencyCycle`,
exits non-zero, writes no calls artifact — and the names listed in the
diagnostic are *exactly* the non-emittable structures (all members of the
stuck set, not just one); however the `types.py` and `schemas.py` artifacts
do exist on disk (the amendment forced by `c1_counterexample`). -/
theorem c1_amended (api : Api)
    (hclean : ∀ e ∈ scan_structures api,
      (generate_class e.data).2 = none ∧ (generate_schema_fields e.data.fields).2.2 = none)
    (hstuck : ∃ n ∈ struct_names (scan_structures api),
      ¬ Emittable (dep_graph (scan_structures api)) n) :
    (generate_types api).exit_code = 1
    ∧ (generate_types api).node_file = none
    ∧ (generate_types api).types_file.isSome = true
    ∧ (generate_types api).schemas_file.isSome = true
    ∧ ∃ L, (generate_types api).err = some (.dependencyLoop L)
        ∧ L ≠ []
        ∧ ∀ n, (n ∈ L ↔ n ∈ struct_names (scan_structures api)
            ∧ ¬ Emittable (dep_graph (scan_structures api)) n) := by
  have hnd := scan_structures_nodup api
  have hungen := scan_structures_ungenerated api
  have herr_r : (gen_loop ((scan_structures api).length + 1)
      ⟨scan_structures api, "", "", [], false, none⟩).err = none :=
    gen_loop_err _ _ hclean rfl
  have hnames_r : struct_names (gen_loop ((scan_structures api).length + 1)
      ⟨scan_structures api, "", "", [], false, none⟩).structs
      = struct_names (scan_structures api) := gen_loop_names _ _
  have hnd_r : (struct_names (gen_loop ((scan_structures api).length + 1)
      ⟨scan_structures api, "", "", [], false, none⟩).structs).Nodup := by
    rw [hnames_r]; exact hnd
  have hgraph_r : dep_graph (gen_loop ((scan_structures api).length + 1)
      ⟨scan_structures api, "", "", [], false, none⟩).structs
      = dep_graph (scan_structures api) := gen_loop_graph _ _ hnd
  have hfix := gen_loop_fix ((scan_structures api).length + 1)
    ⟨scan_structures api, "", "", [], false, none⟩
    (by
      have := List.countP_le_length (l := scan_structures api)
        (p := fun e => !e.generated)
      simp only [count_ungen]
      omega)
    rfl herr_r
  have hstuckchar : ∀ e ∈ (gen_loop ((scan_structures api).length + 1)
      ⟨scan_structures api, "", "", [], false, none⟩).structs, e.generated = false →
      ∃ d ∈ e.depends, ∃ e', find_struct (gen_loop ((scan_structures api).length + 1)
        ⟨scan_structures api, "", "", [], false, none⟩).structs d = some e'
        ∧ e'.generated = false := by
    intro e he hg
    have hany := gp_visits (struct_names (gen_loop ((scan_structures api).length + 1)
        ⟨scan_structures api, "", "", [], false, none⟩).structs)
      { gen_loop ((scan_structures api).length + 1)
          ⟨scan_structures api, "", "", [], false, none⟩ with gen := false }
      (by simp only; exact herr_r) rfl hfix e.data.name
      (List.mem_map_of_mem _ he) e (find_struct_of_mem hnd_r he) hg
    rcases List.any_eq_true.mp hany with ⟨d, hd, hmatch⟩
    refine ⟨d, hd, ?_⟩
    cases hfd : find_struct (gen_loop ((scan_structures api).length + 1)
        ⟨scan_structures api, "", "", [], false, none⟩).structs d with
    | none => rw [hfd] at hmatch; simp at hmatch
    | some e' =>
      rw [hfd] at hmatch
      simp only at hmatch
      refine ⟨e', rfl, ?_⟩
      cases hge' : e'.generated
      · rfl
      · rw [hge'] at hmatch; simp at hmatch
  have hA : ∀ x ∈ (gen_loop ((scan_structures api).length + 1)
      ⟨scan_structures api, "", "", [], false, none⟩).structs, x.generated = true →
      Emittable (dep_graph (scan_structures api)) x.data.name := by
    apply gen_loop_emittable _ _ hnd _ rfl
    intro x hx hxg
    rw [hungen x hx] at hxg
    exact absurd hxg (by simp)
  have hB : ∀ n, Emittable (dep_graph (scan_structures api)) n →
      ∀ e ∈ (gen_loop ((scan_structures api).length + 1)
        ⟨scan_structures api, "", "", [], false, none⟩).structs, e.data.name = n →
      e.generated = true := by
    intro n hn
    exact emittable_generated hnd_r hstuckchar n (by rw [hgraph_r]; exact hn)
  have hmemL : ∀ n, (n ∈ ((gen_loop ((scan_structures api).length + 1)
        ⟨scan_structures api, "", "", [], false, none⟩).structs.filter
          (fun e => !e.generated)).map (fun e => e.data.name)
      ↔ n ∈ struct_names (scan_structures api)
        ∧ ¬ Emittable (dep_graph (scan_structures api)) n) := by
    intro n
    constructor
    · intro hn
      rcases List.mem_map.mp hn with ⟨e, hef, hen⟩
      have hmemf := List.mem_filter.mp hef
      have hgf : e.generated = false := by
        have := hmemf.2
        cases hge : e.generated
        · rfl
        · rw [hge] at this; simp at this
      constructor
      · rw [← hnames_r, ← hen]
        exact List.mem_map_of_mem _ hmemf.1
      · intro hem
        have := hB n hem e hmemf.1 hen
        rw [hgf] at this
        exact absurd this (by simp)
    · intro ⟨hn, hne⟩
      rw [← hnames_r] at hn
      rcases List.mem_map.mp hn with ⟨e, he, hen⟩
      have hgf : e.generated = false := by
        cases hge : e.generated
        · rfl
        · exact absurd (by rw [← hen]; exact hA e he hge) hne
      apply List.mem_map.mpr
      refine ⟨e, List.mem_filter.mpr ⟨he, by rw [hgf]; rfl⟩, hen⟩
  have hLne : ((gen_loop ((scan_structures api).length + 1)
      ⟨scan_structures api, "", "", [], false, none⟩).structs.filter
        (fun e => !e.generated)).map (fun e => e.data.name) ≠ [] := by
    rcases hstuck with ⟨n0, hn0, hne0⟩
    intro hnil
    have := (hmemL n0).mpr ⟨hn0, hne0⟩
    rw [hnil] at this
    simp at this
  have hgerr : (generate_structures (scan_structures api)).err
      = some (.dependencyLoop (((gen_loop ((scan_structures api).length + 1)
        ⟨scan_structures api, "", "", [], false, none⟩).structs.filter
          (fun e => !e.generated)).map (fun e => e.data.name))) := by
    simp only [generate_structures, herr_r]
    rw [if_pos (by
      cases hL : ((gen_loop ((scan_structures api).length + 1)
          ⟨scan_structures api, "", "", [], false, none⟩).structs.filter
            (fun e => !e.generated)).map (fun e => e.data.name) with
      | nil => exact absurd hL hLne
      | cons a l => simp)]
  have hparts := generate_types_err_parts api _ hgerr
  exact ⟨hparts.1, hparts.2.1, hparts.2.2.2.1, hparts.2.2.2.2,
    ⟨_, hparts.2.2.1, hLne, hmemL⟩⟩

/-! ## Substring lemmas for `strContains` -/

theorem list_is_pre_refl_append : ∀ (p r : List Char), list_is_pre p (p ++ r) = true := by
  intro p
  induction p with
  | nil => intro r; rfl
  | cons a as ih =>
    intro r
    simp [list_is_pre, ih r]

theorem list_has_sub_of_pre {p s : List Char} (h : list_is_pre p s = true) :
    list_has_sub p s = true := by
  cases s with
  | nil => exact h
  | cons c rest =>
    simp only [list_has_sub, h, Bool.true_or]

theorem list_has_sub_cons {p : List Char} {c : Char} {s : List Char}
    (h : list_has_sub p s = true) : list_has_sub p (c :: s) = true := by
  simp only [list_has_sub, h, Bool.or_true]

theorem list_has_sub_append_left (a : List Char) {p s : List Char}
    (h : list_has_sub p s = true) : list_has_sub p (a ++ s) = true := by
  induction a with
  | nil => exact h
  | cons c rest ih => exact list_has_sub_cons ih

theorem list_is_pre_append_right {p s : List Char} (b : List Char)
    (h : list_is_pre p s = true) : list_is_pre p (s ++ b) = true := by
  induction p generalizing s with
  | nil => rfl
  | cons a as ih =>
    cases s with
    | nil => simp [list_is_pre] at h
    | cons c rest =>
      simp only [list_is_pre, Bool.and_eq_true, beq_iff_eq] at h
      simp only [List.cons_append, list_is_pre, Bool.and_eq_true, beq_iff_eq]
      exact ⟨h.1, ih h.2⟩

theorem list_has_sub_append_right {p s : List Char} (b : List Char)
    (h : list_has_sub p s = true) : list_has_sub p (s ++ b) = true := by
  induction s with
  | nil =>
    simp only [list_has_sub] at h
    simp only [List.nil_append]
    exact list_has_sub_of_pre (list_is_pre_append_right b h)
  | cons c rest ih =>
    simp only [list_has_sub, Bool.or_eq_true] at h
    rcases h with h | h
    · have h2 := list_is_pre_append_right b h
      simp only [List.cons_append] at h2
      simp [list_has_sub, h2]
    · simp [list_has_sub, ih h]

theorem strContains_self_append (pat b : String) :
    strContains (pat ++ b) pat = true := by
  simp only [strContains, String.toList, String.data_append]
  exact list_has_sub_of_pre (list_is_pre_refl_append _ _)

theorem strContains_left (a : String) {s pat : String}
    (h : strContains s pat = true) : strContains (a ++ s) pat = true := by
  simp only [strContains, String.toList, String.data_append] at h ⊢
  exact list_has_sub_append_left _ h

theorem strContains_right (b : String) {s pat : String}
    (h : strContains s pat = true) : strContains (s ++ b) pat = true := by
  simp only [strContains, String.toList, String.data_append] at h ⊢
  exact list_has_sub_append_right _ h

theorem strContains_refl (pat : String) : strContains pat pat = true := by
  simp only [strContains]
  have := list_is_pre_refl_append pat.toList []
  rw [List.append_nil] at this
  exact list_has_sub_of_pre this

/-! ## C2: optional fields with defaults -/

theorem schema_type_contains_default (indent : Nat) (t : String) (nullable : Bool)
    (d : String) (mn mx : Option String) :
    strContains (schema_type indent t false nullable (some d) mn mx)
      ("\"default\": " ++ d) = true := by
  simp only [schema_type, Bool.false_eq_true, if_false]
  apply strContains_right
  apply strContains_right
  apply strContains_right
  apply strContains_right
  apply strContains_right
  apply strContains_left
  rw [String.append_assoc]
  apply strContains_left
  exact strContains_refl _

theorem schema_array_contains_default (indent : Nat) (t : String) (struct nullable : Bool)
    (d : String) (mi ma mn mx : Option String) :
    strContains (schema_array indent t struct nullable (some d) mi ma mn mx)
      ("\"default\": " ++ d) = true := by
  simp only [schema_array]
  apply strContains_right
  apply strContains_right
  apply strContains_right
  apply strContains_right
  apply strContains_right
  apply strContains_left
  rw [String.append_assoc]
  apply strContains_left
  exact strContains_refl _

theorem schema_field_req_of_default {f : Field} {d : String}
    (hdef : f.py_default = some d) (hany : f.type ≠ some "any") :
    (schema_field f).2.1 = [f.name] := by
  have hopt : (f.optional && (some d : Option String).isNone) = false := by
    simp
  simp only [schema_field, hdef]
  rw [if_neg hany]
  simp only [hopt, Bool.not_false, if_true]
  cases hstruct : f.struct with
  | some s =>
    by_cases hb : s = "Body" <;> by_cases ha : f.array = true <;> simp [hb, ha]
  | none =>
    cases henum : f.enum with
    | some en => by_cases ha : f.array = true <;> simp [ha]
    | none =>
      cases htype : f.type with
      | none => simp
      | some t =>
        cases hst : SCHEMA_TYPES t with
        | none => simp [hst]
        | some entry =>
          cases entry with
          | mapStringInt => simp [hst]
          | plain ts arr => by_cases ha : arr = true <;> simp [hst, ha]

theorem mem_req_of_clean (fields : List Field) (f : Field)
    (hmem : f ∈ fields)
    (hreq : (schema_field f).2.1 = [f.name])
    (hclean : (generate_schema_fields fields).2.2 = none) :
    f.name ∈ (generate_schema_fields fields).2.1 := by
  induction fields with
  | nil => simp at hmem
  | cons g rest ih =>
    simp only [generate_schema_fields] at hclean ⊢
    rcases hg : schema_field g with ⟨txt, req, gerr⟩
    rw [hg] at hclean
    cases gerr with
    | some e => simp only at hclean; exact absurd hclean (by simp)
    | none =>
      simp only at hclean ⊢
      rcases List.mem_cons.mp hmem with rfl | hr
      · apply List.mem_append.mpr
        left
        have : req = [f.name] := by rw [← hreq, hg]
        rw [this]
        exact List.mem_singleton.mpr rfl
      · exact List.mem_append.mpr (Or.inr (ih hr hclean))

/-- C2 (amended, proved): for a field marked `optional` that carries a
default, `generate_schema` behaves as follows.  A field of type `any` is
skipped entirely (no text, never required).  Every other such field *is*
listed in `required` — only optional fields without a default are excluded —
and its schema type is not null-widened.  The default is embedded as
`"default": …` for `Body`-typed fields, array fields, enum fields and
scalar fields resolved through `SCHEMA_TYPES`; the source silently drops it
in exactly two branches, proved here by the emitted text: a non-array
reference to another structure (the fragment is the bare `NAME_SCHEMA`
constant, taking no default) and a `String -> int` map field (whose emitter
takes no default either). -/
theorem c2_amended (fields : List Field) (f : Field) (d : String)
    (hmem : f ∈ fields) (hdef : f.py_default = some d) :
    (f.type = some "any" → schema_field f = ("", [], none))
    ∧ (f.type ≠ some "any" →
        (schema_field f).2.1 = [f.name]
        ∧ ((generate_schema_fields fields).2.2 = none →
            f.name ∈ (generate_schema_fields fields).2.1))
    ∧ (f.type ≠ some "any" → ∀ s, f.struct = some s →
        ((s = "Body" ∨ f.array = true) →
          strContains (schema_field f).1 ("\"default\": " ++ d) = true)
        ∧ (s ≠ "Body" → f.array = false →
            (schema_field f).1
              = ind 2 ++ "\"" ++ f.name ++ "\": "
                ++ (str_to_upper (to_snake s) ++ "_SCHEMA") ++ ",\n"))
    ∧ (f.type ≠ some "any" → f.struct = none → ∀ en, f.enum = some en →
        strContains (schema_field f).1 ("\"default\": " ++ d) = true)
    ∧ (f.struct = none → f.enum = none → ∀ t, f.type = some t →
        SCHEMA_TYPES t = some .mapStringInt →
        (schema_field f).1
          = ind 2 ++ "\"" ++ f.name ++ "\": " ++ schema_map_string_int 2 false ++ ",\n")
    ∧ (f.struct = none → f.enum = none → ∀ t ts arr, f.type = some t →
        SCHEMA_TYPES t = some (.plain ts arr) →
        strContains (schema_field f).1 ("\"default\": " ++ d) = true) := by
  have hopt : (f.optional && (some d : Option String).isNone) = false := by simp
  refine ⟨?_, ?_, ?_, ?_, ?_, ?_⟩
  · intro hty
    simp [schema_field, hty]
  · intro hany
    exact ⟨schema_field_req_of_default hdef hany,
      fun hclean =>
        mem_req_of_clean fields f hmem (schema_field_req_of_default hdef hany) hclean⟩
  · intro hany s hstruct
    constructor
    · intro hor
      simp only [schema_field, hdef]
      rw [if_neg hany]
      simp only [hopt, Bool.not_false, if_true, hstruct]
      rcases hor with hb | ha
      · subst hb
        by_cases ha : f.array = true
        · simp only [ha, if_true, if_pos rfl]
          apply strContains_right
          apply strContains_left
          exact schema_array_contains_default 2 "string" false false d _ _ _ _
        · simp only [Bool.not_eq_true] at ha
          simp only [ha, Bool.false_eq_true, if_false, if_pos rfl]
          apply strContains_right
          apply strContains_left
          exact schema_type_contains_default 2 "string" false d _ _
      · simp only [ha, if_true]
        by_cases hb : s = "Body"
        · simp only [hb, if_pos rfl]
          apply strContains_right
          apply strContains_left
          exact schema_array_contains_default 2 "string" false false d _ _ _ _
        · rw [if_neg hb]
          apply strContains_right
          apply strContains_left
          exact schema_array_contains_default 2 s true false d _ _ _ _
    · intro hbne hane
      simp only [schema_field, hdef]
      rw [if_neg hany]
      simp only [hopt, Bool.not_false, if_true, hstruct]
      rw [if_neg hbne]
      simp only [hane, Bool.false_eq_true, if_false]
      rfl
  · intro hany hstruct en henum
    simp only [schema_field, hdef]
    rw [if_neg hany]
    simp only [hopt, Bool.not_false, if_true, hstruct, henum]
    by_cases ha : f.array = true
    · simp only [ha, if_true]
      apply strContains_right
      apply strContains_left
      exact schema_array_contains_default 2 "string" false false d _ _ _ _
    · simp only [Bool.not_eq_true] at ha
      simp only [ha, Bool.false_eq_true, if_false]
      apply strContains_right
      apply strContains_left
      exact schema_type_contains_default 2 "string" false d _ _
  · intro hstruct henum t htype hst
    have hany : f.type ≠ some "any" := by
      rw [htype]
      intro hh
      have ht := Option.some.inj hh
      subst ht
      exact absurd hst (by decide)
    simp only [schema_field, hdef]
    rw [if_neg hany]
    simp only [hopt, Bool.not_false, if_true, hstruct, henum, htype, hst]
  · intro hstruct henum t ts arr htype hst
    have hany : f.type ≠ some "any" := by
      rw [htype]
      intro hh
      have ht := Option.some.inj hh
      subst ht
      rw [show SCHEMA_TYPES "any" = none from rfl] at hst
      exact Option.noConfusion hst
    simp only [schema_field, hdef]
    rw [if_neg hany]
    simp only [hopt, Bool.not_false, if_true, hstruct, henum, htype, hst]
    by_cases ha : arr = true
    · rw [ha]
      simp only [if_true]
      apply strContains_right
      apply strContains_left
      exact schema_array_contains_default _ _ _ _ _ _ _ _ _
    · simp only [Bool.not_eq_true] at ha
      rw [ha]
      simp only [Bool.false_eq_true, if_false]
      apply strContains_right
      apply strContains_left
      exact schema_type_contains_default _ _ _ _ _ _

/-- Witness for `c2_amended`: the optional field `x` (type `int`, default
`0`) is required and its schema embeds `"default": 0`. -/
theorem c2_amended_witness :
    fieldOptDefault ∈ [fieldOptDefault]
    ∧ fieldOptDefault.py_default = some "0"
    ∧ fieldOptDefault.type ≠ some "any"
    ∧ (generate_schema_fields [fieldOptDefault]).2.2 = none
    ∧ ((schema_field fieldOptDefault).2.1 = [fieldOptDefault.name]
       ∧ ((generate_schema_fields [fieldOptDefault]).2.2 = none →
           fieldOptDefault.name ∈ (generate_schema_fields [fieldOptDefault]).2.1))
    ∧ strContains (schema_field fieldOptDefault).1 ("\"default\": " ++ "0") = true :=
  ⟨by decide, by decide, by decide, by decide,
   (c2_amended [fieldOptDefault] fieldOptDefault "0" (by decide) (by decide)).2.1
     (by decide),
   (c2_amended [fieldOptDefault] fieldOptDefault "0" (by decide) (by decide)).2.2.2.2.2
     (by decide) (by decide) "int" "integer" false (by decide) (by decide)⟩

/-! ## C4, amended -/

/-- C4 (amended, proved): a structure with a `Body`-typed field produces
exactly one typed class — the decoded variant, the field typed `Body`,
null-widened to `Body | None = None` when the field is optional — and the
class text never depends on output-reachability (first conjunct, universal
over all structures); a structure that is never an output produces no
schema text at all (second conjunct, universal); an output-reachable
structure additionally produces exactly one schema validating the `Body`
field as an encoded string — `["string", "null"]` and excluded from
`required` when the field is optional, `"string"` and required otherwise.
No second (encoded) class instantiation exists anywhere. -/
theorem c4_amended (nm fn : String) (opt b : Bool) :
    (∀ e : Structure, (Structure.generate e).tOut = (generate_class e.data).1)
    ∧ (∀ (d : StructData) (deps : List String) (ub oa : Bool),
        (Structure.generate ⟨d, false, deps, ub, false, oa⟩).sOut = "")
    ∧ (Structure.generate ⟨⟨nm, [{ mkField fn with struct := some "Body", optional := opt }]⟩,
          false, ["Body"], true, b, false⟩).tOut
        = "\n\nclass " ++ nm ++ "(Structure):\n"
          ++ ((if opt then
                "    " ++ to_snake fn ++ ": " ++ "Body" ++ " | None = None\n"
              else
                "    " ++ to_snake fn ++ ": " ++ "Body" ++ "\n") ++ "")
    ∧ (Structure.generate ⟨⟨nm, [{ mkField fn with struct := some "Body", optional := opt }]⟩,
          false, ["Body"], true, b, false⟩).sOut
        = (if b then
            "\n" ++ str_to_upper (to_snake nm) ++ "_SCHEMA: Any = \x7b\n"
              ++ "    \"type\": \"object\",\n" ++ "    \"properties\": \x7b\n"
            ++ (ind 2 ++ "\"" ++ fn ++ "\": "
                ++ ("\x7b\n"
                    ++ (if opt then
                          ind 3 ++ "\"type\": [\"" ++ "string" ++ "\", \"null\"]"
                        else
                          ind 3 ++ "\"type\": \"" ++ "string" ++ "\"")
                    ++ "" ++ "" ++ ""
                    ++ "\n" ++ ind 2 ++ "\x7d")
                ++ ",\n" ++ "")
            ++ ("    \x7d,\n"
                ++ (if opt then ""
                    else
                      "    \"required\": [\n"
                      ++ String.join ([fn].map (fun n => "        \"" ++ n ++ "\",\n"))
                      ++ "    ],\n")
                ++ "    \"additionalProperties\": False\n"
                ++ "\x7d\n"
                ++ "")
          else "")
    ∧ (Structure.generate ⟨⟨nm, [{ mkField fn with struct := some "Body", optional := opt }]⟩,
          false, ["Body"], true, b, false⟩).err = none
    ∧ (Structure.generate ⟨⟨nm, [{ mkField fn with struct := some "Body", optional := opt }]⟩,
          false, ["Body"], true, b, false⟩).self
        = ⟨⟨nm, [{ mkField fn with struct := some "Body", optional := opt }]⟩,
           true, ["Body"], true, b, false⟩ := by
  refine ⟨?_, ?_, ?_, ?_, ?_, ?_⟩
  · intro e
    simp only [Structure.generate]
    cases (generate_class e.data).2 with
    | some err => rfl
    | none =>
      by_cases ho : e.output = true
      · simp only [ho, if_true]
        rcases hs : generate_schema e with ⟨stxt, serr⟩
        cases serr <;> rfl
      · simp only [ho, if_false]
        rfl
  · intro d deps ub oa
    simp only [Structure.generate]
    cases (generate_class d).2 with
    | some err => rfl
    | none => rfl
  · cases opt <;> cases b <;> rfl
  · cases opt <;> cases b <;> rfl
  · cases opt <;> cases b <;> rfl
  · cases opt <;> cases b <;> rfl

/-! ## C6, amended: the placeholder scan -/

theorem lookup_remove_ne (ups : List (String × String)) (n k : String) (h : n ≠ k) :
    lookup_param (remove_param ups k) n = lookup_param ups n := by
  induction ups with
  | nil => rfl
  | cons p rest ih =>
    by_cases hp : p.1 = k
    · have hkn : ¬ (k = n) := fun hh => h hh.symm
      simp [remove_param, hp, lookup_param, hkn, ih]
    · by_cases hn : p.1 = n
      · simp [remove_param, hp, lookup_param, hn, h]
      · simp [remove_param, hp, lookup_param, hn, h, ih]

theorem remove_param_filter (ups : List (String × String)) (k : String) :
    remove_param ups k = ups.filter (fun p => p.1 ≠ k) := by
  induction ups with
  | nil => rfl
  | cons p rest ih =>
    by_cases hp : p.1 = k <;> simp [remove_param, hp, List.filter, ih]

theorem location_scan_error (url : String) (phs : List String) :
    ∀ ups acc e, location_scan url phs ups acc = .error e →
      ∃ n ∈ phs, e = .unknownUrlParameter n url := by
  induction phs with
  | nil =>
    intro ups acc e h
    simp [location_scan] at h
  | cons n rest ih =>
    intro ups acc e h
    cases hl : lookup_param ups n with
    | none =>
      simp only [location_scan, hl] at h
      exact ⟨n, List.mem_cons_self _ _, ((Except.error.inj h)).symm⟩
    | some py =>
      simp only [location_scan, hl] at h
      rcases ih _ _ _ h with ⟨m, hm, he⟩
      exact ⟨m, List.mem_cons_of_mem _ hm, he⟩

theorem location_scan_misses (url : String) (phs : List String) :
    ∀ ups acc, (∃ n ∈ phs, lookup_param ups n = none) →
      ∃ e, location_scan url phs ups acc = .error e := by
  induction phs with
  | nil =>
    intro ups acc h
    rcases h with ⟨n, hn, _⟩
    simp at hn
  | cons n rest ih =>
    intro ups acc h
    cases hl : lookup_param ups n with
    | none => exact ⟨.unknownUrlParameter n url, by simp [location_scan, hl]⟩
    | some py =>
      rcases h with ⟨m, hm, hlm⟩
      rcases List.mem_cons.mp hm with rfl | hr
      · rw [hl] at hlm
        exact absurd hlm (by simp)
      · have hmn : m ≠ n := by
          intro hh
          rw [hh, hl] at hlm
          exact absurd hlm (by simp)
        have hlm' : lookup_param (remove_param ups n) m = none := by
          rw [lookup_remove_ne ups m n hmn]
          exact hlm
        rcases ih (remove_param ups n) (acc ++ [n ++ "=quote_plus(" ++ py ++ ")"])
          ⟨m, hr, hlm'⟩ with ⟨e, he⟩
        exact ⟨e, by simp only [location_scan, hl]; exact he⟩

theorem location_scan_ok (url : String) (phs : List String) :
    ∀ ups acc, phs.Nodup → (∀ n ∈ phs, (lookup_param ups n).isSome = true) →
      ∃ pieces, location_scan url phs ups acc
        = .ok (pieces, ups.filter (fun p => !(phs.contains p.1))) := by
  induction phs with
  | nil =>
    intro ups acc _ _
    refine ⟨acc, ?_⟩
    simp [location_scan]
  | cons n rest ih =>
    intro ups acc hnd hall
    have hl : (lookup_param ups n).isSome = true := hall n (List.mem_cons_self n rest)
    cases hlv : lookup_param ups n with
    | none => rw [hlv] at hl; simp at hl
    | some py =>
      have hnd' : rest.Nodup := (List.nodup_cons.mp hnd).2
      have hnn : n ∉ rest := (List.nodup_cons.mp hnd).1
      have hall' : ∀ m ∈ rest, (lookup_param (remove_param ups n) m).isSome = true := by
        intro m hm
        have hmn : m ≠ n := fun hh => hnn (hh ▸ hm)
        rw [lookup_remove_ne ups m n hmn]
        exact hall m (List.mem_cons_of_mem _ hm)
      rcases ih (remove_param ups n) (acc ++ [n ++ "=quote_plus(" ++ py ++ ")"])
        hnd' hall' with ⟨pieces, hp⟩
      refine ⟨pieces, ?_⟩
      simp only [location_scan, hlv]
      rw [hp, remove_param_filter, List.filter_filter]
      have hpred : ∀ p : String × String,
          (!rest.contains p.1 && decide (p.1 ≠ n)) = !((n :: rest).contains p.1) := by
        intro p
        by_cases hpn : p.1 = n <;> simp [hpn, List.contains_cons]
      rw [List.filter_congr (fun p _ => hpred p)]

/-- C6 (amended, proved): when the placeholder scan runs (the source guards
it behind `len(url_params) > 0`, see `c6_counterexample` for the unchecked
case), (1) every failure is an `UnknownUrlParameter` naming a placeholder
of the URL and the URL itself; (2) a placeholder with no declared parameter
forces a failure; (3) when the placeholders are distinct and each names a
declared parameter, the scan succeeds and the parameters left over — exactly
the declared ones no placeholder consumed — are what the emitter then turns
into query parameters. -/
theorem c6_amended (url : String) (phs : List String) (ups : List (String × String)) :
    (∀ e, location_scan url phs ups [] = .error e →
        ∃ n ∈ phs, e = .unknownUrlParameter n url)
    ∧ ((∃ n ∈ phs, lookup_param ups n = none) →
        ∃ e, location_scan url phs ups [] = .error e)
    ∧ (phs.Nodup → (∀ n ∈ phs, (lookup_param ups n).isSome = true) →
        ∃ pieces, location_scan url phs ups []
          = .ok (pieces, ups.filter (fun p => !(phs.contains p.1)))) :=
  ⟨fun e h => location_scan_error url phs ups [] e h,
   fun h => location_scan_misses url phs ups [] h,
   fun hnd hall => location_scan_ok url phs ups [] hnd hall⟩

/-! ## C7: flag bundles -/

/-- C7 (confirmed; the runtime half is modelled from the spec, see
`comma_separated_flags`): a parameter declaring a flag bundle makes the
generated callable accept one `with_<flag>: bool = False` parameter per
sub-flag, in declaration order, and records the bundle's flags and python
name for the call line; at run time `comma_separated_flags` combines
exactly the true flags, comma-joined in order — the lone name when a single
flag is true, and nothing at all (the query parameter is omitted) when none
is. -/
theorem c7_flag_bundling (method url nm en : String) (fs : List String) :
    process_params method url [⟨some nm, none, some en, some fs, false⟩]
        ⟨"self", "", [], none, none, []⟩
      = .ok ⟨"self" ++ String.join (fs.map (fun fl => ", with_" ++ fl ++ ": bool = False")),
             "", [(nm, to_snake nm)], some nm, some (to_snake nm), fs⟩
    ∧ comma_separated_flags (fs.map (fun fl => (fl, false))) = none
    ∧ comma_separated_flags [("flagA", true), ("flagB", false)] = some "flagA"
    ∧ comma_separated_flags [("flagA", false), ("flagB", true)] = some "flagB"
    ∧ comma_separated_flags [("flagA", true), ("flagB", true)] = some "flagA,flagB"
    ∧ comma_separated_flags [("flagA", false), ("flagB", false)] = none := by
  refine ⟨rfl, ?_, by decide, by decide, by decide, by decide⟩
  have hfilter : (fs.map (fun fl => (fl, false))).filter (fun p => p.2) = [] := by
    induction fs with
    | nil => rfl
    | cons f rest _ => simp
  simp [comma_separated_flags, hfilter]

/-! ## C9: determinism -/

/-- C9 (confirmed): the generator is a pure function of the input document —
equal inputs give byte-identical `types.py`, `schemas.py` and `node.py`
artifacts and the same exit code. -/
theorem c9_determinism (a b : Api) (h : a = b) :
    (generate_types a).types_file = (generate_types b).types_file
    ∧ (generate_types a).schemas_file = (generate_types b).schemas_file
    ∧ (generate_types a).node_file = (generate_types b).node_file
    ∧ (generate_types a).exit_code = (generate_types b).exit_code := by
  subst h
  exact ⟨rfl, rfl, rfl, rfl⟩

/-- Witness for `c9_determinism` at `apiGenericBody`. -/
theorem c9_determinism_witness :
    apiGenericBody = apiGenericBody
    ∧ ((generate_types apiGenericBody).types_file
          = (generate_types apiGenericBody).types_file
       ∧ (generate_types apiGenericBody).schemas_file
          = (generate_types apiGenericBody).schemas_file
       ∧ (generate_types apiGenericBody).node_file
          = (generate_types apiGenericBody).node_file
       ∧ (generate_types apiGenericBody).exit_code
          = (generate_types apiGenericBody).exit_code) :=
  ⟨rfl, c9_determinism apiGenericBody apiGenericBody rfl⟩

/-! ## C10: the silent `any` skip -/

theorem class_field_line_any {f : Field} (hstruct : f.struct = none)
    (henum : f.enum = none) (htype : f.type = some "any") :
    class_field_line f = .ok "" := by
  simp [class_field_line, hstruct, henum, htype]

theorem schema_field_any {f : Field} (htype : f.type = some "any") :
    schema_field f = ("", [], none) := by
  simp [schema_field, htype]

/-- C10 (confirmed): a field whose scalar type is exactly `any` is silently
skipped by both emitters: deleting it changes neither the generated class
text (nor its error) nor the schema's properties text, `required` list and
error — in particular it never raises `UnrecognizedFieldType`, even though
`any` is absent from the type tables. -/
theorem c10_any_skipped (nm : String) (before after : List Field) (f : Field)
    (hstruct : f.struct = none) (henum : f.enum = none) (htype : f.type = some "any") :
    generate_class ⟨nm, before ++ f :: after⟩ = generate_class ⟨nm, before ++ after⟩
    ∧ generate_schema_fields (before ++ f :: after)
        = generate_schema_fields (before ++ after) := by
  have h1 : ∀ bs, generate_class_fields (bs ++ f :: after)
      = generate_class_fields (bs ++ after) := by
    intro bs
    induction bs with
    | nil =>
      simp only [List.nil_append, generate_class_fields,
        class_field_line_any hstruct henum htype]
      simp
    | cons g bs ih =>
      simp only [List.cons_append, generate_class_fields]
      cases class_field_line g with
      | error e => rfl
      | ok line => simp only [List.append_eq]; rw [ih]
  have h2 : ∀ bs, generate_schema_fields (bs ++ f :: after)
      = generate_schema_fields (bs ++ after) := by
    intro bs
    induction bs with
    | nil =>
      simp only [List.nil_append, generate_schema_fields, schema_field_any htype]
      simp
    | cons g bs ih =>
      simp only [List.cons_append, generate_schema_fields]
      cases schema_field g with
      | mk txt r2 =>
        cases r2 with
        | mk req gerr =>
          cases gerr with
          | some e => rfl
          | none => simp only [List.append_eq]; rw [ih]
  exact ⟨by simp only [generate_class]; rw [h1 before], h2 before⟩

/-- Witness for `c10_any_skipped`: the field `fieldAny` (type `any`). -/
theorem c10_any_skipped_witness :
    fieldAny.struct = none ∧ fieldAny.enum = none ∧ fieldAny.type = some "any"
    ∧ (generate_class ⟨"s", [fieldAny]⟩ = generate_class ⟨"s", []⟩
       ∧ generate_schema_fields [fieldAny] = generate_schema_fields []) :=
  ⟨rfl, rfl, rfl, c10_any_skipped "s" [] [] fieldAny rfl rfl rfl⟩

/-! ## Remaining witnesses -/

/-- No structure of `api2cycle` is ever emittable: its dependency graph is
the pure two-cycle `a ↔ b`. -/
theorem two_cycle_not_emittable (n : String) :
    ¬ Emittable (dep_graph (scan_structures api2cycle)) n := by
  intro h
  induction h with
  | step n deps hmem hdeps ih =>
    have hg : dep_graph (scan_structures api2cycle)
        = [("a", ["b"]), ("b", ["a"])] := by decide
    rw [hg] at hmem
    rcases List.mem_cons.mp hmem with h1 | h1
    · have hn : deps = ["b"] := congrArg Prod.snd h1
      exact ih "b" (by rw [hn]; exact List.mem_cons_self _ _) (by decide)
    · rcases List.mem_cons.mp h1 with h2 | h2
      · have hn : deps = ["a"] := congrArg Prod.snd h2
        exact ih "a" (by rw [hn]; exact List.mem_cons_self _ _) (by decide)
      · simp at h2

/-- Witness for `c1_amended` at `api2cycle`: both hypotheses hold there
(every class and schema body emits cleanly; no structure is emittable). -/
theorem c1_amended_witness :
    (generate_types api2cycle).exit_code = 1
    ∧ (generate_types api2cycle).node_file = none
    ∧ (generate_types api2cycle).types_file.isSome = true
    ∧ (generate_types api2cycle).schemas_file.isSome = true
    ∧ ∃ L, (generate_types api2cycle).err = some (.dependencyLoop L)
        ∧ L ≠ []
        ∧ ∀ n, (n ∈ L ↔ n ∈ struct_names (scan_structures api2cycle)
            ∧ ¬ Emittable (dep_graph (scan_structures api2cycle)) n) :=
  c1_amended api2cycle (by decide) ⟨"a", by decide, two_cycle_not_emittable "a"⟩

/-- Witness for `c3_topological_validity` at `apiChain`: the order is
`["b", "a"]` and `a`'s present dependency `b` precedes it. -/
theorem c3_witness :
    (generate_structures (scan_structures apiChain)).order = ["b"] ++ "a" :: []
    ∧ chainGenA ∈ (generate_structures (scan_structures apiChain)).structs
    ∧ chainGenA.data.name = "a"
    ∧ ((chainGenA.depends = chainGenA.data.fields.filterMap (fun fl => fl.struct))
       ∧ ∀ d ∈ chainGenA.depends,
           contains_struct (generate_structures (scan_structures apiChain)).structs d
             = true → d ∈ ["b"]) :=
  ⟨by decide, by decide, by decide,
   c3_topological_validity apiChain ["b"] "a" [] (by decide) chainGenA
     (by decide) (by decide)⟩

/-- Witness for `c5_usage_flag_monotonicity` at `apiChain`: `a` depends
directly on `b`; both flags transfer. -/
theorem c5_witness :
    find_struct (scan_structures apiChain) "a" = some chainScanA
    ∧ find_struct (scan_structures apiChain) "b" = some chainScanB
    ∧ ((chainScanB.uses_body = true → chainScanA.uses_body = true)
       ∧ (chainScanA.output = true → chainScanB.output = true)) :=
  ⟨by decide, by decide,
   c5_usage_flag_monotonicity apiChain "a" "b"
     (Relation.TransGen.single ⟨chainScanA, by decide, by decide, by decide, by decide⟩)
     chainScanA chainScanB (by decide) (by decide)⟩

end Moera
